import Mathlib

/-!
# Quadrature encoder: decode step, position counter and interrupt registry

A shallow embedding of `Encoder.h`, `Encoder.cpp` and
`utility/interrupt_definition.h`:

* `Encoder_internal_state_t` and `Encoder` are the two C++ aggregates;
* `Encoder.update` is the portable (non-AVR) body of `Encoder::update`, and
  `update_asm` is its AVR assembly body, instruction by instruction;
* `Encoder.read`, `Encoder.readAndReset`, `Encoder.write` are the inline
  members of the interrupt build (`ENCODER_USE_INTERRUPTS`); `InterruptBuild`
  repeats them with their calls of `noInterrupts()` / `interrupts()`
  recorded;
* `Encoder.constructor`, `attach_interrupt`, `isr` and `Encoder.destructor`
  act on the array `interruptArgs`; `runLife` runs a sequence of constructor
  and destructor calls over it.

`int32_t` values are integers kept in `[-2^31, 2^31)` by `wrap32`; `uint8_t`
values are naturals; pointers are addresses, `nullptr` being 0.  The macro
`DIRECT_PIN_READ` lives in `utility/direct_pin_read.h`, which is not part of
the sources at hand: the two bytes it yields for pin 1 and pin 2 at the
instant of a call are parameters (`p1val`, `p2val`) of every operation that
samples the pins.  The other board macros are the fields of `Platform`.
-/

namespace EncoderModel

/-! ## Machine integers -/

/-- Two's-complement reduction of an integer to the `int32_t` range. -/
def wrap32 (x : Int) : Int := (x + 2147483648) % 4294967296 - 2147483648

/-- Smallest `int32_t`. -/
def INT32_MIN : Int := -2147483648

/-- Largest `int32_t`. -/
def INT32_MAX : Int := 2147483647

/-- Membership in the `int32_t` range. -/
def IsInt32 (x : Int) : Prop := INT32_MIN ≤ x ∧ x ≤ INT32_MAX

instance (x : Int) : Decidable (IsInt32 x) := by
  unfold IsInt32; exact inferInstance

/-! ## Data model (`Encoder.h`) -/

/-- The struct shared between the foreground and the interrupt handlers.
Pointers are represented by their addresses. -/
structure Encoder_internal_state_t where
  pin1_register : Nat
  pin2_register : Nat
  pin1_bitmask : Nat
  pin2_bitmask : Nat
  state : Nat
  position : Int
deriving DecidableEq

/-- The private members of `class Encoder` in the interrupt build. -/
structure Encoder where
  encoder : Encoder_internal_state_t
  interrupts_in_use : Nat
deriving DecidableEq

/-! ## `Encoder::update`, portable path (`Encoder.cpp`) -/

/-- Body of `Encoder::update` for `!defined(__AVR__)`.  `p1val` and `p2val`
are the values of the two locals of the same name, i.e. what
`DIRECT_PIN_READ` returned for pin 1 and pin 2. -/
def Encoder.update (p1val p2val : Nat) (arg : Encoder_internal_state_t) :
    Encoder_internal_state_t :=
  let state := arg.state &&& 3
  let state := if p1val ≠ 0 then state ||| 4 else state
  let state := if p2val ≠ 0 then state ||| 8 else state
  let arg := { arg with state := state >>> 2 }
  match state with
  | 1 | 7 | 8 | 14 => { arg with position := wrap32 (arg.position + 1) }
  | 2 | 4 | 11 | 13 => { arg with position := wrap32 (arg.position - 1) }
  | 3 | 12 => { arg with position := wrap32 (arg.position + 2) }
  | 6 | 9 => { arg with position := wrap32 (arg.position - 2) }
  | _ => arg

/-! ## Foreground operations (`Encoder.h`, interrupt build) -/

/-- Member `Encoder::read`: the returned value and the object afterwards. -/
def Encoder.read (p1val p2val : Nat) (self : Encoder) : Int × Encoder :=
  let self :=
    if self.interrupts_in_use < 2 then
      { self with encoder := Encoder.update p1val p2val self.encoder }
    else self
  let ret := self.encoder.position
  (ret, self)

/-- Member `Encoder::readAndReset`: the returned value and the object
afterwards. -/
def Encoder.readAndReset (p1val p2val : Nat) (self : Encoder) : Int × Encoder :=
  let self :=
    if self.interrupts_in_use < 2 then
      { self with encoder := Encoder.update p1val p2val self.encoder }
    else self
  let ret := self.encoder.position
  let self := { self with encoder := { self.encoder with position := 0 } }
  (ret, self)

/-- Member `Encoder::write`. -/
def Encoder.write (p : Int) (self : Encoder) : Encoder :=
  { self with encoder := { self.encoder with position := p } }

/-! ## Vocabulary of the specification -/

/-- The 2-bit sample formed from the two channel levels, channel A in bit 0
and channel B in bit 1. -/
def newSample (p1val p2val : Nat) : Nat :=
  (if p1val ≠ 0 then 1 else 0) + 2 * (if p2val ≠ 0 then 1 else 0)

/-- The delta table of section 4.1 of the specification, indexed by the
combined code `old + 4 * new`. -/
def specDelta (code : Nat) : Int :=
  [0, 1, -1, 2, -1, 0, -2, 1, 1, -2, 0, -1, 2, -1, 1, 0].getD code 0

/-- Feeding a list of sampled pin values to `update`, one call per entry. -/
def runUpdates (samples : List (Nat × Nat)) (arg : Encoder_internal_state_t) :
    Encoder_internal_state_t :=
  samples.foldl (fun st s => Encoder.update s.1 s.2 st) arg

/-- Sum of the table deltas met when the samples of a list are replayed
through the table, starting from the retained sample `old`. -/
def sumDeltas : Nat → List (Nat × Nat) → Int
  | _, [] => 0
  | old, s :: rest =>
      specDelta (old % 4 + 4 * newSample s.1 s.2) + sumDeltas (newSample s.1 s.2) rest

/-- Pin values of one forward revolution from sample 00, written (A, B):
01, 11, 10, 00, i.e. the packed samples 2, 3, 1, 0. -/
def forwardCycle : List (Nat × Nat) := [(0, 1), (1, 1), (1, 0), (0, 0)]

/-- Pin values of one reverse revolution from sample 00, written (A, B):
10, 11, 01, 00, i.e. the packed samples 1, 3, 2, 0. -/
def reverseCycle : List (Nat × Nat) := [(1, 0), (1, 1), (0, 1), (0, 0)]

/-- A cycle of samples repeated `n` times. -/
def repeatCycle (c : List (Nat × Nat)) : Nat → List (Nat × Nat)
  | 0 => []
  | n + 1 => c ++ repeatCycle c n

/-- A 2-bit sample with channel A and channel B exchanged. -/
def swapBits (s : Nat) : Nat := 2 * (s % 2) + s / 2 % 2

/-- The state struct as it would be with the two channels exchanged: pin 1
and pin 2 trade places and so do the two bits of the retained sample. -/
def swapChannels (arg : Encoder_internal_state_t) : Encoder_internal_state_t :=
  { pin1_register := arg.pin2_register
    pin2_register := arg.pin1_register
    pin1_bitmask := arg.pin2_bitmask
    pin2_bitmask := arg.pin1_bitmask
    state := swapBits arg.state
    position := arg.position }

/-- No step of the sample list, started from retained sample `old`, changes
both channel levels at once. -/
def noDoubleFlip : Nat → List (Nat × Nat) → Bool
  | _, [] => true
  | old, s :: rest =>
      ((old % 4) ^^^ newSample s.1 s.2 != 3) && noDoubleFlip (newSample s.1 s.2) rest

/-- The amount by which one `update` changes the position, read as an
`int32_t` difference (new position minus old position). -/
def positionChange (p1val p2val : Nat) (arg : Encoder_internal_state_t) : Int :=
  wrap32 ((Encoder.update p1val p2val arg).position - arg.position)

/-- The motion reported over a list of samples: final position minus initial
position, read as an `int32_t` difference. -/
def totalMotion (samples : List (Nat × Nat)) (arg : Encoder_internal_state_t) : Int :=
  wrap32 ((runUpdates samples arg).position - arg.position)

/-- Number of bit positions (of the two) in which two 2-bit samples differ. -/
def bitsDiffering (old new : Nat) : Nat := (old ^^^ new) % 2 + (old ^^^ new) / 2 % 2

/-- Position of a packed sample on the Gray-code circle 0, 2, 3, 1. -/
def phase : Nat → Int
  | 0 => 0
  | 2 => 1
  | 3 => 2
  | 1 => 3
  | _ => 0

/-- The quantity `position - phase(retained sample)` reduced modulo 4. -/
def phaseOffset (arg : Encoder_internal_state_t) : Int :=
  (arg.position - phase (arg.state % 4)) % 4

/-! ## Handlers and drive sequences -/

/-- The objects that registry pointers refer to: for each address the state
struct stored there. -/
abbrev StateMemory := Nat → Encoder_internal_state_t

/-- The handler `isr##pin` generated by `ENCODER_DEFINE_ISR(pin)`: it calls
`Encoder::update(interruptArgs[pin])`, so it updates the struct its registry
slot points to.  `p1val`, `p2val` are the pin values that `update` samples. -/
def isr (pin : Nat) (p1val p2val : Nat) (interruptArgs : List Nat)
    (mem : StateMemory) : StateMemory :=
  let arg := interruptArgs.getD pin 0
  fun a => if a = arg then Encoder.update p1val p2val (mem a) else mem a

/-- A foreground `read()` on the session whose state struct lives at address
`a` and whose binding count is `interrupts_in_use`. -/
def readAt (a interrupts_in_use : Nat) (p1val p2val : Nat) (mem : StateMemory) :
    Int × StateMemory :=
  let r := Encoder.read p1val p2val ⟨mem a, interrupts_in_use⟩
  (r.1, fun x => if x = a then r.2.encoder else mem x)

/-- What can happen to a fully-bound session: an edge delivered to the handler
of channel A, an edge delivered to the handler of channel B, or a foreground
`read()`.  Each carries the pin values sampled at that instant. -/
inductive Delivery where
  | edgeA (p1val p2val : Nat)
  | edgeB (p1val p2val : Nat)
  | read (p1val p2val : Nat)
deriving DecidableEq

/-- Running an interleaving of deliveries and reads for the session at address
`a`, whose channels own the interrupt numbers `n1` and `n2`. -/
def runDeliveries (a n1 n2 : Nat) (interruptArgs : List Nat) :
    List Delivery → StateMemory → StateMemory
  | [], mem => mem
  | Delivery.edgeA p1val p2val :: rest, mem =>
      runDeliveries a n1 n2 interruptArgs rest (isr n1 p1val p2val interruptArgs mem)
  | Delivery.edgeB p1val p2val :: rest, mem =>
      runDeliveries a n1 n2 interruptArgs rest (isr n2 p1val p2val interruptArgs mem)
  | Delivery.read p1val p2val :: rest, mem =>
      runDeliveries a n1 n2 interruptArgs rest (readAt a 2 p1val p2val mem).2

/-- The edge samples of an interleaving, in order, with the reads dropped. -/
def edgeSamples : List Delivery → List (Nat × Nat)
  | [] => []
  | Delivery.edgeA p1val p2val :: rest => (p1val, p2val) :: edgeSamples rest
  | Delivery.edgeB p1val p2val :: rest => (p1val, p2val) :: edgeSamples rest
  | Delivery.read _ _ :: rest => edgeSamples rest

/-- Driving a session with one direct `update` call per sample and reading it
with `read()` after each sample, the pins still at that sample: the list of
values the reads return. -/
def driveAndRead : List (Nat × Nat) → Encoder → List Int
  | [], _ => []
  | s :: rest, self =>
      let self := { self with encoder := Encoder.update s.1 s.2 self.encoder }
      let r := Encoder.read s.1 s.2 self
      r.1 :: driveAndRead rest r.2

/-! ## Construction, the interrupt registry and destruction (`Encoder.cpp`) -/

/-- What the board headers `utility/direct_pin_read.h` and
`utility/interrupt_pins.h` supply, taken as parameters because the headers are
not among the sources: the macros `PIN_TO_BASEREG` and `PIN_TO_BITMASK`, and
the table of the macros `CORE_INTn_PIN` (`CORE_INT_PIN n = some p` when
`CORE_INTn_PIN` is defined as pin `p`, `none` when it is not defined). -/
structure Platform where
  PIN_TO_BASEREG : Nat → Nat
  PIN_TO_BITMASK : Nat → Nat
  CORE_INT_PIN : Nat → Option Nat

/-- The `case` of the `switch (pin)` in `attach_interrupt` that `pin` selects:
the interrupt number `n`, among 0..59, whose `CORE_INTn_PIN` is `pin`; `none`
stands for the `default:` label. -/
def interruptNumber (board : Platform) (pin : Nat) : Option Nat :=
  (List.range 60).find? (fun n => board.CORE_INT_PIN n == some pin)

/-- Function `attach_interrupt`: the returned byte and the array
`interruptArgs` afterwards.  Pointers are addresses, `nullptr` is 0.  The call
of the core function `attachInterrupt(n, isrN, CHANGE)` acts on the interrupt
controller, not on the array. -/
def attach_interrupt (board : Platform) (pin : Nat) (state : Nat)
    (interruptArgs : List Nat) : Nat × List Nat :=
  match interruptNumber board pin with
  | some n => (1, interruptArgs.set n state)
  | none => (0, interruptArgs)

/-- Constructor `Encoder::Encoder(pin1, pin2)`: the object built and the array
`interruptArgs` afterwards.  `self_addr` is `&encoder`; `p1val`, `p2val` are
what the two `DIRECT_PIN_READ` calls return after the settle delay. -/
def Encoder.constructor (board : Platform) (pin1 pin2 : Nat) (p1val p2val : Nat)
    (self_addr : Nat) (interruptArgs : List Nat) : Encoder × List Nat :=
  let encoder : Encoder_internal_state_t :=
    { pin1_register := board.PIN_TO_BASEREG pin1
      pin1_bitmask := board.PIN_TO_BITMASK pin1
      pin2_register := board.PIN_TO_BASEREG pin2
      pin2_bitmask := board.PIN_TO_BITMASK pin2
      position := 0
      state := 0 }
  let s := 0
  let s := if p1val ≠ 0 then s ||| 1 else s
  let s := if p2val ≠ 0 then s ||| 2 else s
  let encoder := { encoder with state := s }
  let r1 := attach_interrupt board pin1 self_addr interruptArgs
  let interrupts_in_use := r1.1
  let r2 := attach_interrupt board pin2 self_addr r1.2
  let interrupts_in_use := (interrupts_in_use + r2.1) % 256
  ({ encoder := encoder, interrupts_in_use := interrupts_in_use }, r2.2)

/-- One pass of the loop body of the destructor for slot `n`. -/
def destructorStep (self_addr : Nat) (interruptArgs : List Nat) (n : Nat) : List Nat :=
  let arg := interruptArgs.getD n 0
  if arg ≠ 0 ∧ arg = self_addr then interruptArgs.set n 0 else interruptArgs

/-- Destructor `Encoder::~Encoder`: the array `interruptArgs` afterwards, with
`ENCODER_ARGLIST_SIZE` the length of the array.  The loop counter is an
`unsigned char`, so the loop ends only when the size is at most 255; `none`
stands for a loop that does not end.  The call `detachInterrupt(n)` acts on
the interrupt controller, not on the array. -/
def Encoder.destructor (self_addr : Nat) (interruptArgs : List Nat) : Option (List Nat) :=
  if interruptArgs.length ≤ 255 then
    some ((List.range interruptArgs.length).foldl (destructorStep self_addr) interruptArgs)
  else none

/-! ## The foreground operations with their calls recorded

The same three members of the interrupt build once more, this time recording
in order every call of `noInterrupts()` / `interrupts()` and every access to
the shared struct. -/

/-- What a foreground operation does that matters for exclusion. -/
inductive Event where
  | noInterrupts
  | interrupts
  | update
  | loadPosition
  | storePosition
deriving DecidableEq

/-- An access to `position` or `state` of the shared struct. -/
def Event.isAccess : Event → Bool
  | Event.noInterrupts => false
  | Event.interrupts => false
  | _ => true

/-- The object together with the record of what has been done so far. -/
structure Run where
  self : Encoder
  log : List Event

/-- Call of `noInterrupts()`. -/
def Run.noInterrupts (r : Run) : Run := { r with log := r.log ++ [Event.noInterrupts] }

/-- Call of `interrupts()`. -/
def Run.interrupts (r : Run) : Run := { r with log := r.log ++ [Event.interrupts] }

/-- Call of `update(&encoder)`. -/
def Run.update (p1val p2val : Nat) (r : Run) : Run :=
  { self := { r.self with encoder := Encoder.update p1val p2val r.self.encoder }
    log := r.log ++ [Event.update] }

/-- Evaluation of `encoder.position`. -/
def Run.loadPosition (r : Run) : Int × Run :=
  (r.self.encoder.position, { r with log := r.log ++ [Event.loadPosition] })

/-- Assignment `encoder.position = p`. -/
def Run.storePosition (p : Int) (r : Run) : Run :=
  { self := { r.self with encoder := { r.self.encoder with position := p } }
    log := r.log ++ [Event.storePosition] }

/-- Member `read` of the interrupt build, recorded. -/
def InterruptBuild.read (p1val p2val : Nat) (self : Encoder) : Int × Run :=
  let r : Run := { self := self, log := [] }
  let r :=
    if r.self.interrupts_in_use < 2 then
      (r.noInterrupts).update p1val p2val
    else
      r.noInterrupts
  let ret := r.loadPosition
  let r := ret.2.interrupts
  (ret.1, r)

/-- Member `readAndReset` of the interrupt build, recorded. -/
def InterruptBuild.readAndReset (p1val p2val : Nat) (self : Encoder) : Int × Run :=
  let r : Run := { self := self, log := [] }
  let r :=
    if r.self.interrupts_in_use < 2 then
      (r.noInterrupts).update p1val p2val
    else
      r.noInterrupts
  let ret := r.loadPosition
  let r := ret.2.storePosition 0
  let r := r.interrupts
  (ret.1, r)

/-- Member `write` of the interrupt build, recorded. -/
def InterruptBuild.write (p : Int) (self : Encoder) : Run :=
  let r : Run := { self := self, log := [] }
  let r := r.noInterrupts
  let r := r.storePosition p
  r.interrupts

/-- A record is a critical section: delivery is disabled first, re-enabled
last, and everything in between is an access. -/
def bracketed : List Event → Bool
  | Event.noInterrupts :: rest =>
      rest.getLast? == some Event.interrupts && rest.dropLast.all Event.isAccess
  | _ => false

/-- Whether asynchronous delivery is enabled after an event, given whether it
was enabled before. -/
def deliveryAfter (enabled : Bool) : Event → Bool
  | Event.noInterrupts => false
  | Event.interrupts => true
  | _ => enabled

/-- Whether asynchronous delivery is enabled once a whole record has run. -/
def deliveryAtEnd (enabled : Bool) (log : List Event) : Bool :=
  log.foldl deliveryAfter enabled

/-- Whether a handler could run somewhere strictly inside a record, i.e.
whether delivery is enabled in a gap between two consecutive events. -/
def handlerCanRunInside : Bool → List Event → Bool
  | _, [] => false
  | _, [_] => false
  | enabled, e :: f :: rest =>
      deliveryAfter enabled e || handlerCanRunInside (deliveryAfter enabled e) (f :: rest)

/-! ## `Encoder::update`, AVR path (`Encoder.cpp`)

The inline assembly, instruction by instruction, on the part of the AVR
machine it touches: the byte registers, the pointer register X, the carry and
zero flags and the data memory.  Z is the register pair r31:r30. -/

/-- The part of the AVR machine state the assembly uses. -/
structure AVR where
  reg : Nat → Nat
  X : Nat
  carry : Bool
  zero : Bool
  mem : Nat → Nat

/-- Writing a byte register. -/
def AVR.setReg (d v : Nat) (s : AVR) : AVR :=
  { s with reg := fun r => if r = d then v else s.reg r }

/-- Writing a byte of data memory. -/
def AVR.setMem (a v : Nat) (s : AVR) : AVR :=
  { s with mem := fun b => if b = a then v else s.mem b }

/-- The pointer held in Z = r31:r30. -/
def AVR.Z (s : AVR) : Nat := s.reg 30 + 256 * s.reg 31

/-- `ld Rd, X+`. -/
def AVR.ld_Xinc (d : Nat) (s : AVR) : AVR :=
  { s.setReg d (s.mem s.X) with X := s.X + 1 }

/-- `ld Rd, X`. -/
def AVR.ld_X (d : Nat) (s : AVR) : AVR := s.setReg d (s.mem s.X)

/-- `ld Rd, Z`. -/
def AVR.ld_Z (d : Nat) (s : AVR) : AVR := s.setReg d (s.mem s.Z)

/-- `st X+, Rr`. -/
def AVR.st_Xinc (r : Nat) (s : AVR) : AVR :=
  { s.setMem s.X (s.reg r) with X := s.X + 1 }

/-- `st -X, Rr`. -/
def AVR.st_decX (r : Nat) (s : AVR) : AVR :=
  { s.setMem (s.X - 1) (s.reg r) with X := s.X - 1 }

/-- `ldi Rd, K`. -/
def AVR.ldi (d k : Nat) (s : AVR) : AVR := s.setReg d k

/-- `andi Rd, K`. -/
def AVR.andi (d k : Nat) (s : AVR) : AVR :=
  { s.setReg d (s.reg d &&& k) with zero := decide (s.reg d &&& k = 0) }

/-- `ori Rd, K`. -/
def AVR.ori (d k : Nat) (s : AVR) : AVR :=
  { s.setReg d (s.reg d ||| k) with zero := decide (s.reg d ||| k = 0) }

/-- `and Rd, Rr`. -/
def AVR.and (d r : Nat) (s : AVR) : AVR :=
  { s.setReg d (s.reg d &&& s.reg r) with zero := decide (s.reg d &&& s.reg r = 0) }

/-- `add Rd, Rr`. -/
def AVR.add (d r : Nat) (s : AVR) : AVR :=
  { s.setReg d ((s.reg d + s.reg r) % 256) with
    carry := decide (256 ≤ s.reg d + s.reg r)
    zero := decide ((s.reg d + s.reg r) % 256 = 0) }

/-- `adc Rd, Rr`. -/
def AVR.adc (d r : Nat) (s : AVR) : AVR :=
  { s.setReg d ((s.reg d + s.reg r + s.carry.toNat) % 256) with
    carry := decide (256 ≤ s.reg d + s.reg r + s.carry.toNat)
    zero := decide ((s.reg d + s.reg r + s.carry.toNat) % 256 = 0) }

/-- `asr Rd`: bit 7 stays, the other bits move down, bit 0 goes to carry. -/
def AVR.asr (d : Nat) (s : AVR) : AVR :=
  { s.setReg d (s.reg d / 2 ||| (s.reg d &&& 128)) with
    carry := decide (s.reg d % 2 = 1)
    zero := decide (s.reg d / 2 ||| (s.reg d &&& 128) = 0) }

/-- `subi Rd, K`. -/
def AVR.subi (d k : Nat) (s : AVR) : AVR :=
  { s.setReg d ((s.reg d + 256 - k) % 256) with
    carry := decide (s.reg d < k)
    zero := decide ((s.reg d + 256 - k) % 256 = 0) }

/-- `sbci Rd, K`: subtract with borrow; the zero flag can only be cleared. -/
def AVR.sbci (d k : Nat) (s : AVR) : AVR :=
  { s.setReg d ((s.reg d + 256 - k - s.carry.toNat) % 256) with
    carry := decide (s.reg d < k + s.carry.toNat)
    zero := s.zero && decide ((s.reg d + 256 - k - s.carry.toNat) % 256 = 0) }

/-- Label `L%=store`: the four `st -X` that write the position back. -/
def asm_store (s : AVR) : AVR :=
  let s := s.st_decX 25
  let s := s.st_decX 24
  let s := s.st_decX 23
  let s := s.st_decX 22
  s

/-- Label `L%=z`: the three `sbci` shared by `plus2` and `plus1`, then the
store. -/
def asm_z (s : AVR) : AVR :=
  let s := s.sbci 23 255
  let s := s.sbci 24 255
  let s := s.sbci 25 255
  asm_store s

/-- Label `L%=minus2`. -/
def asm_minus2 (s : AVR) : AVR :=
  let s := s.subi 22 2
  let s := s.sbci 23 0
  let s := s.sbci 24 0
  let s := s.sbci 25 0
  asm_store s

/-- Label `L%=minus1`. -/
def asm_minus1 (s : AVR) : AVR :=
  let s := s.subi 22 1
  let s := s.sbci 23 0
  let s := s.sbci 24 0
  let s := s.sbci 25 0
  asm_store s

/-- Label `L%=plus2`. -/
def asm_plus2 (s : AVR) : AVR :=
  let s := s.subi 22 254
  asm_z s

/-- Label `L%=plus1`. -/
def asm_plus1 (s : AVR) : AVR :=
  let s := s.subi 22 255
  asm_z s

/-- The `ijmp` into the sixteen `rjmp` at `L%=table`, which sits at program
address `table`: entry `Z - table` is taken.  Entries past the sixteenth do
not belong to the table. -/
def asm_ijmp (table : Nat) (s : AVR) : AVR :=
  match (s.Z + 65536 - table % 65536) % 65536 with
  | 0 => s
  | 1 => asm_plus1 s
  | 2 => asm_minus1 s
  | 3 => asm_plus2 s
  | 4 => asm_minus1 s
  | 5 => s
  | 6 => asm_minus2 s
  | 7 => asm_plus1 s
  | 8 => asm_plus1 s
  | 9 => asm_minus2 s
  | 10 => s
  | 11 => asm_minus1 s
  | 12 => asm_plus2 s
  | 13 => asm_minus1 s
  | 14 => asm_plus1 s
  | 15 => s
  | _ => s

/-- The `asm volatile` block from its first instruction to the first `breq`,
entered with `arg` in X: both pin registers are read, the masks and the state
byte are loaded, and pin 1 is masked. -/
def asm_entry (s : AVR) : AVR :=
  let s := s.ld_Xinc 30
  let s := s.ld_Xinc 31
  let s := s.ld_Z 24
  let s := s.ld_Xinc 30
  let s := s.ld_Xinc 31
  let s := s.ld_Z 25
  let s := s.ld_Xinc 30
  let s := s.ld_Xinc 31
  let s := s.ld_X 22
  let s := s.andi 22 3
  let s := s.and 24 30
  s

/-- Label `L%=1`, up to the second `breq`: pin 2 is masked. -/
def asm_L1 (s : AVR) : AVR := s.and 25 31

/-- Label `L%=2`, up to the `ijmp`: Z is pointed at entry r22 of the table,
the new state byte is stored and the position is loaded into
r25:r24:r23:r22.  `__zero_reg__` is r1. -/
def asm_L2 (table : Nat) (s : AVR) : AVR :=
  let s := s.ldi 30 (table % 256)
  let s := s.ldi 31 (table / 256 % 256)
  let s := s.add 30 22
  let s := s.adc 31 1
  let s := s.asr 22
  let s := s.asr 22
  let s := s.st_Xinc 22
  let s := s.ld_Xinc 22
  let s := s.ld_Xinc 23
  let s := s.ld_Xinc 24
  let s := s.ld_Xinc 25
  s

/-- Body of `Encoder::update` for `defined(__AVR__)`: the whole `asm volatile`
block, with `L%=table` at program address `table`.  Each `breq` skips the
`ori` that follows it when the zero flag is set. -/
def update_asm (table : Nat) (s : AVR) : AVR :=
  let s := asm_entry s
  let s := if s.zero then s else s.ori 22 4
  let s := asm_L1 s
  let s := if s.zero then s else s.ori 22 8
  let s := asm_L2 table s
  asm_ijmp table s

/-- The state struct as the assembly lays it out at address `x` of the data
memory: two 16-bit pointers, two mask bytes, the state byte and the position
as four bytes, least significant first, in two's complement. -/
def structAt (mem : Nat → Nat) (x : Nat) : Encoder_internal_state_t :=
  { pin1_register := mem x + 256 * mem (x + 1)
    pin2_register := mem (x + 2) + 256 * mem (x + 3)
    pin1_bitmask := mem (x + 4)
    pin2_bitmask := mem (x + 5)
    state := mem (x + 6)
    position :=
      wrap32 (mem (x + 7) + 256 * mem (x + 8) + 65536 * mem (x + 9) +
        16777216 * mem (x + 10)) }

/-- A data memory holding one state struct at address 100: both pins on the
port at address 35 (which reads 4: pin 1 high, pin 2 low), masks 4 and 8, state
byte 0 and position `INT32_MIN` (bytes 0, 0, 0, 128). -/
def sampleMemory : Nat → Nat := fun a =>
  if a = 35 then 4 else if a = 100 then 35 else if a = 102 then 35
  else if a = 104 then 4 else if a = 105 then 8 else if a = 110 then 128 else 0

/-! ## Sessions coming and going over the shared registry -/

/-- A live `Encoder` object: the address of its state struct, the two pins it
was constructed on and the object itself. -/
structure Session where
  addr : Nat
  pin1 : Nat
  pin2 : Nat
  obj : Encoder

/-- The array `interruptArgs` together with the sessions alive. -/
structure World where
  interruptArgs : List Nat
  live : List Session

/-- A constructor call `Encoder(pin1, pin2)` for an object whose state struct
is at `self_addr` (with the two pin values sampled), or the destructor call of
the object at `self_addr`. -/
inductive LifeEvent where
  | construct (pin1 pin2 p1val p2val self_addr : Nat)
  | destroy (self_addr : Nat)

/-- One constructor or destructor call; `none` when the destructor loop does
not end. -/
def lifeStep (board : Platform) (w : World) : LifeEvent → Option World
  | LifeEvent.construct pin1 pin2 p1val p2val self_addr =>
      let r := Encoder.constructor board pin1 pin2 p1val p2val self_addr w.interruptArgs
      some { interruptArgs := r.2
             live := { addr := self_addr, pin1 := pin1, pin2 := pin2, obj := r.1 } :: w.live }
  | LifeEvent.destroy self_addr =>
      match Encoder.destructor self_addr w.interruptArgs with
      | some args =>
          some { interruptArgs := args
                 live := w.live.filter (fun s => s.addr != self_addr) }
      | none => none

/-- A sequence of constructor and destructor calls, in order. -/
def runLife (board : Platform) : List LifeEvent → World → Option World
  | [], w => some w
  | e :: rest, w =>
      match lifeStep board w e with
      | some w1 => runLife board rest w1
      | none => none

/-- The registry slot of `pin` exists and holds the pointer `addr`. -/
def slotHolds (board : Platform) (interruptArgs : List Nat) (pin addr : Nat) : Bool :=
  match interruptNumber board pin with
  | some n => decide (n < interruptArgs.length) && (interruptArgs.getD n 0 == addr)
  | none => false

/-- A session is backed by the registry: if it was constructed on two
distinct pins and has binding count 2, the slots of both pins hold its state
pointer. -/
def backed (board : Platform) (interruptArgs : List Nat) (s : Session) : Bool :=
  if s.pin1 ≠ s.pin2 ∧ s.obj.interrupts_in_use = 2 then
    slotHolds board interruptArgs s.pin1 s.addr && slotHolds board interruptArgs s.pin2 s.addr
  else true

/-- A constructor call names no pin of a session that is alive; destructor
calls are always allowed. -/
def pinsFree (w : World) : LifeEvent → Bool
  | LifeEvent.construct pin1 pin2 _ _ _ =>
      w.live.all (fun s =>
        s.pin1 != pin1 && s.pin1 != pin2 && s.pin2 != pin1 && s.pin2 != pin2)
  | LifeEvent.destroy _ => true

/-- Along the whole sequence every constructor call names only pins that no
live session uses at that moment. -/
def pinsNeverShared (board : Platform) : List LifeEvent → World → Bool
  | [], _ => true
  | e :: rest, w =>
      pinsFree w e &&
        (match lifeStep board w e with
         | some w1 => pinsNeverShared board rest w1
         | none => true)

/-- A board with interrupt 0 on pin 2 and interrupt 1 on pin 3. -/
def sampleBoard : Platform :=
  { PIN_TO_BASEREG := fun _ => 35
    PIN_TO_BITMASK := fun pin => 2 ^ pin
    CORE_INT_PIN := fun n => if n = 0 then some 2 else if n = 1 then some 3 else none }

/-! ## Arithmetic of `wrap32` -/

theorem wrap32_isInt32 (x : Int) : IsInt32 (wrap32 x) := by
  unfold IsInt32 wrap32 INT32_MIN INT32_MAX
  omega

theorem wrap32_of_isInt32 {x : Int} (h : IsInt32 x) : wrap32 x = x := by
  unfold IsInt32 INT32_MIN INT32_MAX at h
  unfold wrap32
  omega

theorem wrap32_add_left (x d : Int) : wrap32 (wrap32 x + d) = wrap32 (x + d) := by
  unfold wrap32
  omega

theorem wrap32_neg (x : Int) : wrap32 (-wrap32 x) = wrap32 (-x) := by
  unfold wrap32
  omega

/-! ## What one `update` does -/

theorem land_three (s : Nat) : s &&& 3 = s % 4 :=
  Nat.and_pow_two_sub_one_eq_mod s 2

theorem newSample_lt (p1val p2val : Nat) : newSample p1val p2val < 4 := by
  unfold newSample
  split <;> split <;> decide

/-- The result of `update` in closed form: the retained sample becomes the new
sample, and the position is rewritten only for the twelve codes with a
non-zero table entry. -/
theorem update_eq (p1val p2val : Nat) (arg : Encoder_internal_state_t) :
    Encoder.update p1val p2val arg =
      { arg with
        state := newSample p1val p2val
        position :=
          if specDelta (arg.state % 4 + 4 * newSample p1val p2val) = 0 then arg.position
          else wrap32 (arg.position +
            specDelta (arg.state % 4 + 4 * newSample p1val p2val)) } := by
  have hmod : arg.state % 4 = 0 ∨ arg.state % 4 = 1 ∨ arg.state % 4 = 2 ∨
      arg.state % 4 = 3 := by omega
  rcases hmod with h | h | h | h <;> by_cases h1 : p1val = 0 <;> by_cases h2 : p2val = 0 <;>
    simp [Encoder.update, newSample, specDelta, land_three, h, h1, h2] <;> rfl

theorem update_state (p1val p2val : Nat) (arg : Encoder_internal_state_t) :
    (Encoder.update p1val p2val arg).state = newSample p1val p2val := by
  rw [update_eq]

theorem update_position (p1val p2val : Nat) (arg : Encoder_internal_state_t)
    (hp : IsInt32 arg.position) :
    (Encoder.update p1val p2val arg).position =
      wrap32 (arg.position + specDelta (arg.state % 4 + 4 * newSample p1val p2val)) := by
  rw [update_eq]
  simp only
  split
  · next h => rw [h, add_zero, wrap32_of_isInt32 hp]
  · rfl

theorem update_isInt32 (p1val p2val : Nat) (arg : Encoder_internal_state_t)
    (hp : IsInt32 arg.position) : IsInt32 (Encoder.update p1val p2val arg).position := by
  rw [update_position p1val p2val arg hp]
  exact wrap32_isInt32 _

/-- Sampling the levels that are already retained changes nothing. -/
theorem update_same_sample (p1val p2val : Nat) (arg : Encoder_internal_state_t)
    (h : arg.state % 4 = newSample p1val p2val) :
    (Encoder.update p1val p2val arg).position = arg.position := by
  rw [update_eq, h]
  have h4 := newSample_lt p1val p2val
  have hz : specDelta (newSample p1val p2val + 4 * newSample p1val p2val) = 0 := by
    generalize newSample p1val p2val = n at h4
    interval_cases n <;> rfl
  simp [hz]

theorem update_idem (p1val p2val : Nat) (arg : Encoder_internal_state_t) :
    (Encoder.update p1val p2val (Encoder.update p1val p2val arg)).position =
      (Encoder.update p1val p2val arg).position := by
  apply update_same_sample
  rw [update_state, Nat.mod_eq_of_lt (newSample_lt p1val p2val)]

/-! ## Replaying a list of samples -/

theorem runUpdates_cons (s : Nat × Nat) (rest : List (Nat × Nat))
    (arg : Encoder_internal_state_t) :
    runUpdates (s :: rest) arg = runUpdates rest (Encoder.update s.1 s.2 arg) := rfl

theorem runUpdates_append (l₁ l₂ : List (Nat × Nat)) (arg : Encoder_internal_state_t) :
    runUpdates (l₁ ++ l₂) arg = runUpdates l₂ (runUpdates l₁ arg) := by
  simp [runUpdates, List.foldl_append]

theorem runUpdates_position (samples : List (Nat × Nat)) :
    ∀ arg : Encoder_internal_state_t, IsInt32 arg.position →
      (runUpdates samples arg).position =
        wrap32 (arg.position + sumDeltas arg.state samples) := by
  induction samples with
  | nil =>
      intro arg hp
      simp [runUpdates, sumDeltas, wrap32_of_isInt32 hp]
  | cons s rest ih =>
      intro arg hp
      rw [runUpdates_cons, ih _ (update_isInt32 s.1 s.2 arg hp), update_state,
        update_position s.1 s.2 arg hp, wrap32_add_left, sumDeltas, add_assoc]

theorem sumDeltas_forward (n : Nat) :
    sumDeltas 0 (repeatCycle forwardCycle n) = 4 * (n : Int) := by
  induction n with
  | zero => rfl
  | succ k ih =>
      have hstep : sumDeltas 0 (repeatCycle forwardCycle (k + 1)) =
          4 + sumDeltas 0 (repeatCycle forwardCycle k) := by
        simp [repeatCycle, forwardCycle, sumDeltas, newSample, specDelta]
        ring
      rw [hstep, ih]
      push_cast
      ring

theorem sumDeltas_reverse (n : Nat) :
    sumDeltas 0 (repeatCycle reverseCycle n) = -(4 * (n : Int)) := by
  induction n with
  | zero => rfl
  | succ k ih =>
      have hstep : sumDeltas 0 (repeatCycle reverseCycle (k + 1)) =
          -4 + sumDeltas 0 (repeatCycle reverseCycle k) := by
        simp [repeatCycle, reverseCycle, sumDeltas, newSample, specDelta]
        ring
      rw [hstep, ih]
      push_cast
      ring

/-! ## Facts about the table -/

theorem specDelta_bounds (code : Nat) : -2 ≤ specDelta code ∧ specDelta code ≤ 2 := by
  by_cases h : code < 16
  · interval_cases code <;> decide
  · have h16 : 16 ≤ code := by omega
    simp [specDelta, List.getD, List.getElem?_eq_none, h16]

theorem specDelta_eq_zero_iff (old new : Nat) (ho : old < 4) (hn : new < 4) :
    specDelta (old + 4 * new) = 0 ↔ new = old := by
  interval_cases old <;> interval_cases new <;> decide

theorem positionChange_eq (p1val p2val : Nat) (arg : Encoder_internal_state_t) :
    positionChange p1val p2val arg =
      specDelta (arg.state % 4 + 4 * newSample p1val p2val) := by
  have hb := specDelta_bounds (arg.state % 4 + 4 * newSample p1val p2val)
  unfold positionChange
  rw [update_eq]
  simp only
  split
  · next h => rw [h]; simp [wrap32]
  · unfold wrap32; omega

theorem swapBits_lt (s : Nat) : swapBits s < 4 := by
  unfold swapBits; omega

theorem swapBits_mod (s : Nat) : swapBits s % 4 = swapBits (s % 4) := by
  rw [Nat.mod_eq_of_lt (swapBits_lt s)]
  unfold swapBits; omega

theorem newSample_swap (p1val p2val : Nat) :
    newSample p2val p1val = swapBits (newSample p1val p2val) := by
  unfold newSample swapBits
  split <;> split <;> rfl

theorem specDelta_swap (old new : Nat) (ho : old < 4) (hn : new < 4) :
    (old ^^^ new ≠ 3 →
        specDelta (swapBits old + 4 * swapBits new) = -specDelta (old + 4 * new)) ∧
      (old ^^^ new = 3 →
        specDelta (swapBits old + 4 * swapBits new) = specDelta (old + 4 * new)) := by
  interval_cases old <;> interval_cases new <;> decide

theorem sumDeltas_swap (samples : List (Nat × Nat)) :
    ∀ old : Nat, noDoubleFlip old samples = true →
      sumDeltas (swapBits old) (samples.map Prod.swap) = -sumDeltas old samples := by
  induction samples with
  | nil => intro old _; simp [sumDeltas]
  | cons s rest ih =>
      intro old h
      simp only [noDoubleFlip, Bool.and_eq_true, bne_iff_ne, ne_eq] at h
      have hstep := (specDelta_swap (old % 4) (newSample s.1 s.2)
        (Nat.mod_lt _ (by decide)) (newSample_lt _ _)).1 h.1
      simp only [List.map_cons, sumDeltas, Prod.fst_swap, Prod.snd_swap, newSample_swap s.1 s.2,
        swapBits_mod, hstep, ih _ h.2]
      ring

/-! ## The decode table -/

/-- C1 (table completeness): for a retained sample in 0..3 and any sampled
pair of levels, one `update` adds to the position the delta that the table of
the specification lists for the combined code `old + 4 * new` (with `int32_t`
wraparound), and it sets the retained sample to the new sample. -/
theorem update_table_complete (p1val p2val : Nat) (arg : Encoder_internal_state_t)
    (hs : arg.state < 4) (hp : IsInt32 arg.position) :
    (Encoder.update p1val p2val arg).position =
        wrap32 (arg.position + specDelta (arg.state + 4 * newSample p1val p2val)) ∧
      (Encoder.update p1val p2val arg).state = newSample p1val p2val := by
  refine ⟨?_, update_state p1val p2val arg⟩
  rw [update_position p1val p2val arg hp, Nat.mod_eq_of_lt hs]

theorem update_table_complete_witness :
    (3 : Nat) < 4 ∧ IsInt32 100 ∧
      (Encoder.update 0 1 ⟨16, 16, 1, 2, 3, 100⟩).position =
        wrap32 (100 + specDelta (3 + 4 * newSample 0 1)) ∧
      (Encoder.update 0 1 ⟨16, 16, 1, 2, 3, 100⟩).state = newSample 0 1 :=
  ⟨by decide, by decide,
    update_table_complete 0 1 ⟨16, 16, 1, 2, 3, 100⟩ (by decide) (by decide)⟩

/-- C2 (Gray-code fidelity): from retained sample 00 and any `int32_t`
position `p`, `N` forward revolutions 00→01→11→10→00 (packed samples 2, 3, 1,
0) leave the position at `p + 4 * N`, and `N` reverse revolutions
00→10→11→01→00 (packed samples 1, 3, 2, 0) leave it at `p - 4 * N`, both with
`int32_t` wraparound. -/
theorem gray_code_fidelity (N : Nat) (arg : Encoder_internal_state_t)
    (hs : arg.state = 0) (hp : IsInt32 arg.position) :
    forwardCycle.map (fun s => newSample s.1 s.2) = [2, 3, 1, 0] ∧
      reverseCycle.map (fun s => newSample s.1 s.2) = [1, 3, 2, 0] ∧
      (runUpdates (repeatCycle forwardCycle N) arg).position =
        wrap32 (arg.position + 4 * (N : Int)) ∧
      (runUpdates (repeatCycle reverseCycle N) arg).position =
        wrap32 (arg.position - 4 * (N : Int)) := by
  refine ⟨by decide, by decide, ?_, ?_⟩
  · rw [runUpdates_position _ arg hp, hs, sumDeltas_forward]
  · rw [runUpdates_position _ arg hp, hs, sumDeltas_reverse, sub_eq_add_neg]

theorem gray_code_fidelity_witness :
    (runUpdates (repeatCycle forwardCycle 3) ⟨16, 16, 1, 2, 0, 5⟩).position = 17 ∧
      (runUpdates (repeatCycle reverseCycle 3) ⟨16, 16, 1, 2, 0, 5⟩).position = -7 :=
  ⟨(gray_code_fidelity 3 ⟨16, 16, 1, 2, 0, 5⟩ rfl (by decide)).2.2.1,
    (gray_code_fidelity 3 ⟨16, 16, 1, 2, 0, 5⟩ rfl (by decide)).2.2.2⟩

/-! ## The foreground operations -/

/-- C3 (`read` contract): with fewer than 2 channels bound, `read` applies
one `update` with the current levels and returns the resulting position,
which is the stored position afterwards; with 2 channels bound it returns the
stored position and leaves the whole object, position and retained sample
included, as it was. -/
theorem read_contract (p1val p2val : Nat) (self : Encoder) :
    (self.interrupts_in_use < 2 →
        (Encoder.read p1val p2val self).2.encoder =
            Encoder.update p1val p2val self.encoder ∧
          (Encoder.read p1val p2val self).1 =
            (Encoder.update p1val p2val self.encoder).position ∧
          (Encoder.read p1val p2val self).1 =
            (Encoder.read p1val p2val self).2.encoder.position) ∧
      (self.interrupts_in_use = 2 →
        (Encoder.read p1val p2val self).1 = self.encoder.position ∧
          (Encoder.read p1val p2val self).2 = self) := by
  constructor
  · intro h
    simp [Encoder.read, h]
  · intro h
    simp [Encoder.read, h]

theorem read_contract_witness :
    ((Encoder.read 1 0 ⟨⟨16, 16, 1, 2, 0, 7⟩, 1⟩).1 = 6 ∧
        (Encoder.read 1 0 ⟨⟨16, 16, 1, 2, 0, 7⟩, 1⟩).2.encoder.position = 6 ∧
        (Encoder.read 1 0 ⟨⟨16, 16, 1, 2, 0, 7⟩, 1⟩).2.encoder.state = 1) ∧
      (Encoder.read 1 0 ⟨⟨16, 16, 1, 2, 0, 7⟩, 2⟩).1 = 7 ∧
      (Encoder.read 1 0 ⟨⟨16, 16, 1, 2, 0, 7⟩, 2⟩).2 = ⟨⟨16, 16, 1, 2, 0, 7⟩, 2⟩ := by
  have h1 := (read_contract 1 0 ⟨⟨16, 16, 1, 2, 0, 7⟩, 1⟩).1 (by decide)
  have h2 := (read_contract 1 0 ⟨⟨16, 16, 1, 2, 0, 7⟩, 2⟩).2 rfl
  refine ⟨⟨?_, ?_, ?_⟩, h2.1, h2.2⟩
  · rw [h1.2.1]; decide
  · rw [← h1.2.2, h1.2.1]; decide
  · rw [h1.1]; decide

/-- C4 (read stability): whatever the object, the binding count and the pin
levels, a second `read` made with the same pin levels right after a first one
returns the same value. -/
theorem read_stable (p1val p2val : Nat) (self : Encoder) :
    (Encoder.read p1val p2val (Encoder.read p1val p2val self).2).1 =
      (Encoder.read p1val p2val self).1 := by
  by_cases h : self.interrupts_in_use < 2
  · simp [Encoder.read, h, update_idem]
  · simp [Encoder.read, h]

/-- C5 (reset semantics): `readAndReset` returns what `read` returns from the
same object with the same pin levels, and a `read` made afterwards with the
pin levels unchanged returns 0. -/
theorem readAndReset_semantics (p1val p2val : Nat) (self : Encoder) :
    (Encoder.readAndReset p1val p2val self).1 = (Encoder.read p1val p2val self).1 ∧
      (Encoder.read p1val p2val (Encoder.readAndReset p1val p2val self).2).1 = 0 := by
  constructor
  · rfl
  · by_cases h : self.interrupts_in_use < 2
    · simp only [Encoder.read, Encoder.readAndReset, h, if_true]
      apply update_same_sample
      simp only [update_state, Nat.mod_eq_of_lt (newSample_lt p1val p2val)]
    · simp [Encoder.read, Encoder.readAndReset, h]

/-- C6 (write/read round-trip, as amended): for an `int32_t` value `V`,
`write(V)` followed at once by `read()` returns `V` exactly when 2 channels
are bound or the current pin levels equal the retained sample; with fewer than
2 channels bound `read()` first applies the catch-up `update`, and it returns
`V` plus the table delta of the step from the retained sample to the current
levels (with `int32_t` wraparound). -/
theorem write_read_roundtrip (V : Int) (p1val p2val : Nat) (self : Encoder)
    (hV : IsInt32 V) :
    ((Encoder.read p1val p2val (Encoder.write V self)).1 = V ↔
        (2 ≤ self.interrupts_in_use ∨
          newSample p1val p2val = self.encoder.state % 4)) ∧
      (self.interrupts_in_use < 2 →
        (Encoder.read p1val p2val (Encoder.write V self)).1 =
          wrap32 (V + specDelta (self.encoder.state % 4 + 4 * newSample p1val p2val))) := by
  have hb := specDelta_bounds (self.encoder.state % 4 + 4 * newSample p1val p2val)
  have hz := specDelta_eq_zero_iff (self.encoder.state % 4) (newSample p1val p2val)
    (Nat.mod_lt _ (by decide)) (newSample_lt _ _)
  by_cases h : self.interrupts_in_use < 2
  · have hread : (Encoder.read p1val p2val (Encoder.write V self)).1 =
        wrap32 (V + specDelta (self.encoder.state % 4 + 4 * newSample p1val p2val)) := by
      simp only [Encoder.read, Encoder.write, h, if_true]
      rw [update_position _ _ _ hV]
    refine ⟨?_, fun _ => hread⟩
    rw [hread, ← hz]
    unfold IsInt32 INT32_MIN INT32_MAX at hV
    unfold wrap32
    constructor
    · intro heq
      right
      omega
    · intro hor
      rcases hor with h2 | h0
      · omega
      · rw [h0]
        omega
  · refine ⟨?_, fun h2 => absurd h2 h⟩
    have hle : 2 ≤ self.interrupts_in_use := by omega
    simp [Encoder.read, Encoder.write, h, hle]

theorem write_read_roundtrip_witness :
    IsInt32 (-9) ∧
      ((Encoder.read 1 1 (Encoder.write (-9) ⟨⟨16, 16, 1, 2, 3, 40⟩, 0⟩)).1 = -9) ∧
      ((Encoder.read 1 0 (Encoder.write (-9) ⟨⟨16, 16, 1, 2, 3, 40⟩, 0⟩)).1 = -8) :=
  ⟨by decide,
    (write_read_roundtrip (-9) 1 1 ⟨⟨16, 16, 1, 2, 3, 40⟩, 0⟩ (by decide)).1.2
      (Or.inr (by decide)),
    (write_read_roundtrip (-9) 1 0 ⟨⟨16, 16, 1, 2, 3, 40⟩, 0⟩ (by decide)).2 (by decide)⟩

/-- C6 as stated fails: with no channel bound, retained sample 00 and channel
A now high, `write(5)` followed by `read()` returns 4. -/
theorem write_read_roundtrip_counterexample :
    IsInt32 5 ∧
      (Encoder.read 1 0 (Encoder.write 5 ⟨⟨16, 16, 1, 2, 0, 0⟩, 0⟩)).1 = 4 ∧
      (Encoder.read 1 0 (Encoder.write 5 ⟨⟨16, 16, 1, 2, 0, 0⟩, 0⟩)).1 ≠ 5 := by
  decide

/-- C7 (wraparound): after `write(INT32_MAX)` an `update` whose combined code
has delta +1 leaves the position at `INT32_MIN`; after `write(INT32_MIN)` an
`update` whose combined code has delta -1 leaves it at `INT32_MAX`; and every
`update` of an `int32_t` position yields the `int32_t` value congruent modulo
2^32 to the old position plus the table delta. -/
theorem update_wraparound (p1val p2val : Nat) (self : Encoder) :
    (specDelta (self.encoder.state % 4 + 4 * newSample p1val p2val) = 1 →
        (Encoder.update p1val p2val (Encoder.write INT32_MAX self).encoder).position =
          INT32_MIN) ∧
      (specDelta (self.encoder.state % 4 + 4 * newSample p1val p2val) = -1 →
        (Encoder.update p1val p2val (Encoder.write INT32_MIN self).encoder).position =
          INT32_MAX) ∧
      (IsInt32 self.encoder.position →
        IsInt32 (Encoder.update p1val p2val self.encoder).position ∧
          (Encoder.update p1val p2val self.encoder).position % 4294967296 =
            (self.encoder.position +
              specDelta (self.encoder.state % 4 + 4 * newSample p1val p2val)) %
              4294967296) := by
  refine ⟨?_, ?_, ?_⟩
  · intro h
    have hmax : IsInt32 (Encoder.write INT32_MAX self).encoder.position := by
      simp only [Encoder.write]; decide
    rw [update_position _ _ _ hmax]
    simp only [Encoder.write, h]
    decide
  · intro h
    have hmin : IsInt32 (Encoder.write INT32_MIN self).encoder.position := by
      simp only [Encoder.write]; decide
    rw [update_position _ _ _ hmin]
    simp only [Encoder.write, h]
    decide
  · intro hp
    refine ⟨update_isInt32 _ _ _ hp, ?_⟩
    rw [update_position _ _ _ hp]
    unfold wrap32
    omega

theorem update_wraparound_witness :
    (Encoder.update 0 0 (Encoder.write INT32_MAX ⟨⟨16, 16, 1, 2, 1, 0⟩, 2⟩).encoder).position =
        INT32_MIN ∧
      (Encoder.update 0 0 (Encoder.write INT32_MIN ⟨⟨16, 16, 1, 2, 2, 0⟩, 2⟩).encoder).position =
        INT32_MAX ∧
      IsInt32 (Encoder.update 1 1 ⟨16, 16, 1, 2, 0, INT32_MAX⟩).position :=
  ⟨(update_wraparound 0 0 ⟨⟨16, 16, 1, 2, 1, 0⟩, 2⟩).1 (by decide),
    (update_wraparound 0 0 ⟨⟨16, 16, 1, 2, 2, 0⟩, 2⟩).2.1 (by decide),
    ((update_wraparound 1 1 ⟨⟨16, 16, 1, 2, 0, INT32_MAX⟩, 2⟩).2.2 (by decide)).1⟩

/-- C8 (`write` frame): `write(v)` sets the position to `v` and leaves the
retained sample, the four pin register and bitmask fields and the binding
count as they were. -/
theorem write_frame (v : Int) (self : Encoder) :
    (Encoder.write v self).encoder.position = v ∧
      (Encoder.write v self).encoder.state = self.encoder.state ∧
      (Encoder.write v self).encoder.pin1_register = self.encoder.pin1_register ∧
      (Encoder.write v self).encoder.pin2_register = self.encoder.pin2_register ∧
      (Encoder.write v self).encoder.pin1_bitmask = self.encoder.pin1_bitmask ∧
      (Encoder.write v self).encoder.pin2_bitmask = self.encoder.pin2_bitmask ∧
      (Encoder.write v self).interrupts_in_use = self.interrupts_in_use :=
  ⟨rfl, rfl, rfl, rfl, rfl, rfl, rfl⟩

/-- C9 (per-update delta, as amended): the amount by which one `update`
changes the position is the table delta of its combined code, a member of
{-2, -1, 0, +1, +2}. -/
theorem update_delta_range (p1val p2val : Nat) (arg : Encoder_internal_state_t) :
    positionChange p1val p2val arg =
        specDelta (arg.state % 4 + 4 * newSample p1val p2val) ∧
      positionChange p1val p2val arg ∈ ([-2, -1, 0, 1, 2] : List Int) := by
  refine ⟨positionChange_eq p1val p2val arg, ?_⟩
  rw [positionChange_eq]
  have hb := specDelta_bounds (arg.state % 4 + 4 * newSample p1val p2val)
  generalize specDelta (arg.state % 4 + 4 * newSample p1val p2val) = d at hb
  obtain ⟨h1, h2⟩ := hb
  interval_cases d <;> decide

/-- C9 as stated fails: from retained sample 01 with both channels low the
position goes from 0 to 1, a change of +1, which is not in
{-2, -1, 0, +2, -2}. -/
theorem update_delta_range_counterexample :
    (Encoder.update 0 0 ⟨16, 16, 1, 2, 1, 0⟩).position - 0 = 1 ∧
      positionChange 0 0 ⟨16, 16, 1, 2, 1, 0⟩ = 1 ∧
      positionChange 0 0 ⟨16, 16, 1, 2, 1, 0⟩ ∉ ([-2, -1, 0, 2, -2] : List Int) := by
  decide

/-- C10 (channel swap, as amended): when the retained sample and the new
sample differ in at most one bit, the delta `update` applies with channels A
and B exchanged is the negation of the original delta; when both bits differ
the delta is the same with and without the exchange; hence over every sample
list in which no step flips both bits, exchanging the channels negates the
total reported motion (as an `int32_t`). -/
theorem channel_swap_negates (p1val p2val : Nat) (samples : List (Nat × Nat))
    (arg : Encoder_internal_state_t) :
    ((arg.state % 4) ^^^ newSample p1val p2val ≠ 3 →
        positionChange p2val p1val (swapChannels arg) =
          -positionChange p1val p2val arg) ∧
      ((arg.state % 4) ^^^ newSample p1val p2val = 3 →
        positionChange p2val p1val (swapChannels arg) =
          positionChange p1val p2val arg) ∧
      (IsInt32 arg.position → noDoubleFlip arg.state samples = true →
        totalMotion (samples.map Prod.swap) (swapChannels arg) =
          wrap32 (-totalMotion samples arg)) := by
  have hsw := specDelta_swap (arg.state % 4) (newSample p1val p2val)
    (Nat.mod_lt _ (by decide)) (newSample_lt _ _)
  have hst : (swapChannels arg).state % 4 = swapBits (arg.state % 4) := by
    simp only [swapChannels, swapBits_mod]
  refine ⟨?_, ?_, ?_⟩
  · intro h
    rw [positionChange_eq, positionChange_eq, hst, newSample_swap p1val p2val]
    exact hsw.1 h
  · intro h
    rw [positionChange_eq, positionChange_eq, hst, newSample_swap p1val p2val]
    exact hsw.2 h
  · intro hp hflip
    have hp2 : IsInt32 (swapChannels arg).position := hp
    unfold totalMotion
    rw [runUpdates_position _ _ hp2, runUpdates_position _ _ hp]
    have hsum : sumDeltas (swapChannels arg).state (samples.map Prod.swap) =
        -sumDeltas arg.state samples := sumDeltas_swap samples arg.state hflip
    have hpos : (swapChannels arg).position = arg.position := rfl
    rw [hsum, hpos]
    unfold wrap32
    omega

theorem channel_swap_negates_witness :
    (positionChange 1 0 ⟨16, 17, 1, 2, 0, 0⟩ = -1 ∧
        positionChange 0 1 (swapChannels ⟨16, 17, 1, 2, 0, 0⟩) =
          -positionChange 1 0 ⟨16, 17, 1, 2, 0, 0⟩) ∧
      positionChange 0 0 (swapChannels ⟨16, 17, 1, 2, 3, 0⟩) =
        positionChange 0 0 ⟨16, 17, 1, 2, 3, 0⟩ ∧
      (noDoubleFlip 0 [(0, 1), (1, 1), (1, 0)] = true ∧
        totalMotion [(0, 1), (1, 1), (1, 0)] ⟨16, 17, 1, 2, 0, 0⟩ = 3 ∧
        totalMotion ([(0, 1), (1, 1), (1, 0)].map Prod.swap)
            (swapChannels ⟨16, 17, 1, 2, 0, 0⟩) =
          wrap32 (-totalMotion [(0, 1), (1, 1), (1, 0)] ⟨16, 17, 1, 2, 0, 0⟩)) :=
  ⟨⟨by decide,
      (channel_swap_negates 1 0 [] ⟨16, 17, 1, 2, 0, 0⟩).1 (by decide)⟩,
    (channel_swap_negates 0 0 [] ⟨16, 17, 1, 2, 3, 0⟩).2.1 (by decide),
    by decide, by decide,
    (channel_swap_negates 0 0 [(0, 1), (1, 1), (1, 0)] ⟨16, 17, 1, 2, 0, 0⟩).2.2
      (by decide) (by decide)⟩

/-- C10 as stated fails: for the step from sample 11 to sample 00 the delta is
+2, and with the channels exchanged (the same two samples) it is +2 again, not
-2. -/
theorem channel_swap_negates_counterexample :
    positionChange 0 0 ⟨16, 17, 1, 2, 3, 0⟩ = 2 ∧
      positionChange 0 0 (swapChannels ⟨16, 17, 1, 2, 3, 0⟩) = 2 ∧
      positionChange 0 0 (swapChannels ⟨16, 17, 1, 2, 3, 0⟩) ≠
        -positionChange 0 0 ⟨16, 17, 1, 2, 3, 0⟩ := by
  decide

/-! ## Further facts about the table and about repeated updates -/

theorem specDelta_natAbs (old new : Nat) (ho : old < 4) (hn : new < 4) :
    (specDelta (old + 4 * new)).natAbs = bitsDiffering old new ∧
      ((specDelta (old + 4 * new)).natAbs = 2 ↔ old + 4 * new ∈ [3, 6, 9, 12]) := by
  interval_cases old <;> interval_cases new <;> decide

theorem specDelta_phase (old new : Nat) (ho : old < 4) (hn : new < 4) :
    (specDelta (old + 4 * new) - (phase new - phase old)) % 4 = 0 := by
  interval_cases old <;> interval_cases new <;> decide

theorem specDelta_bounce (a b : Nat) (ha : a < 4) (hb : b < 4)
    (h : bitsDiffering a b = 1) : specDelta (a + 4 * b) = -specDelta (b + 4 * a) := by
  interval_cases a <;> interval_cases b <;> first | decide | exact absurd h (by decide)

theorem wrap32_mod_four (x : Int) : wrap32 x % 4 = x % 4 := by
  unfold wrap32
  omega

theorem state_ext (x y : Encoder_internal_state_t)
    (h1 : x.pin1_register = y.pin1_register) (h2 : x.pin2_register = y.pin2_register)
    (h3 : x.pin1_bitmask = y.pin1_bitmask) (h4 : x.pin2_bitmask = y.pin2_bitmask)
    (h5 : x.state = y.state) (h6 : x.position = y.position) : x = y := by
  cases x
  cases y
  simp only [Encoder_internal_state_t.mk.injEq]
  exact ⟨h1, h2, h3, h4, h5, h6⟩

theorem update_pins (p1val p2val : Nat) (arg : Encoder_internal_state_t) :
    (Encoder.update p1val p2val arg).pin1_register = arg.pin1_register ∧
      (Encoder.update p1val p2val arg).pin2_register = arg.pin2_register ∧
      (Encoder.update p1val p2val arg).pin1_bitmask = arg.pin1_bitmask ∧
      (Encoder.update p1val p2val arg).pin2_bitmask = arg.pin2_bitmask := by
  rw [update_eq]
  exact ⟨rfl, rfl, rfl, rfl⟩

theorem update_update_same (p1val p2val : Nat) (arg : Encoder_internal_state_t) :
    Encoder.update p1val p2val (Encoder.update p1val p2val arg) =
      Encoder.update p1val p2val arg := by
  obtain ⟨h1, h2, h3, h4⟩ := update_pins p1val p2val (Encoder.update p1val p2val arg)
  exact state_ext _ _ h1 h2 h3 h4 (by rw [update_state, update_state])
    (update_idem p1val p2val arg)

theorem update_phaseOffset (p1val p2val : Nat) (arg : Encoder_internal_state_t) :
    phaseOffset (Encoder.update p1val p2val arg) = phaseOffset arg := by
  have hph := specDelta_phase (arg.state % 4) (newSample p1val p2val)
    (Nat.mod_lt _ (by decide)) (newSample_lt _ _)
  unfold phaseOffset
  rw [update_eq]
  simp only [Nat.mod_eq_of_lt (newSample_lt p1val p2val)]
  split
  · next h =>
      rw [h] at hph
      omega
  · have hw := wrap32_mod_four
      (arg.position + specDelta (arg.state % 4 + 4 * newSample p1val p2val))
    omega

theorem runUpdates_phaseOffset (samples : List (Nat × Nat)) :
    ∀ arg : Encoder_internal_state_t, phaseOffset (runUpdates samples arg) = phaseOffset arg := by
  induction samples with
  | nil => intro arg; rfl
  | cons s rest ih =>
      intro arg
      rw [runUpdates_cons, ih, update_phaseOffset]

/-! ## Shape of the table -/

/-- C17 (step magnitude): the absolute value of the delta one `update` applies
equals the number of bits in which the retained sample and the new sample
differ, and it is 2 exactly for the combined codes 3, 6, 9 and 12. -/
theorem step_magnitude (p1val p2val : Nat) (arg : Encoder_internal_state_t) :
    (positionChange p1val p2val arg).natAbs =
        bitsDiffering (arg.state % 4) (newSample p1val p2val) ∧
      ((positionChange p1val p2val arg).natAbs = 2 ↔
        arg.state % 4 + 4 * newSample p1val p2val ∈ [3, 6, 9, 12]) := by
  rw [positionChange_eq]
  exact specDelta_natAbs (arg.state % 4) (newSample p1val p2val)
    (Nat.mod_lt _ (by decide)) (newSample_lt _ _)

/-- C19 (phase invariant): with phase 0, 1, 2, 3 for the packed samples 0, 2,
3, 1, one `update` preserves `position - phase(retained sample)` modulo 4,
double flips included; so does every sequence of updates, hence the change in
position is congruent modulo 4 to phase(final sample) - phase(initial
sample). -/
theorem phase_invariant (p1val p2val : Nat) (samples : List (Nat × Nat))
    (arg : Encoder_internal_state_t) :
    phaseOffset (Encoder.update p1val p2val arg) = phaseOffset arg ∧
      phaseOffset (runUpdates samples arg) = phaseOffset arg ∧
      ((runUpdates samples arg).position - arg.position) % 4 =
        (phase ((runUpdates samples arg).state % 4) - phase (arg.state % 4)) % 4 := by
  refine ⟨update_phaseOffset p1val p2val arg, runUpdates_phaseOffset samples arg, ?_⟩
  have h := runUpdates_phaseOffset samples arg
  unfold phaseOffset at h
  omega

/-- C20 (a bounce nets zero): when the retained sample `a` and a new sample
`b` differ in exactly one bit, the delta for `a → b` is the negation of the
delta for `b → a`, and the two updates `a → b → a` restore the position and
the retained sample, indeed the whole state struct. -/
theorem bounce_nets_zero (p1val p2val q1val q2val : Nat) (arg : Encoder_internal_state_t)
    (ha : newSample p1val p2val = arg.state)
    (hbit : bitsDiffering arg.state (newSample q1val q2val) = 1)
    (hp : IsInt32 arg.position) :
    positionChange q1val q2val arg =
        -positionChange p1val p2val (Encoder.update q1val q2val arg) ∧
      (Encoder.update p1val p2val (Encoder.update q1val q2val arg)).position =
        arg.position ∧
      (Encoder.update p1val p2val (Encoder.update q1val q2val arg)).state = arg.state ∧
      Encoder.update p1val p2val (Encoder.update q1val q2val arg) = arg := by
  have hlt : arg.state < 4 := ha ▸ newSample_lt p1val p2val
  have hb := specDelta_bounce arg.state (newSample q1val q2val) hlt (newSample_lt _ _) hbit
  have hq := update_position q1val q2val arg hp
  have hpos : (Encoder.update p1val p2val (Encoder.update q1val q2val arg)).position =
      arg.position := by
    rw [update_position _ _ _ (update_isInt32 _ _ _ hp), hq, update_state, ha,
      Nat.mod_eq_of_lt hlt, Nat.mod_eq_of_lt (newSample_lt _ _), hb]
    unfold IsInt32 INT32_MIN INT32_MAX at hp
    have hbd := specDelta_bounds (newSample q1val q2val + 4 * arg.state)
    unfold wrap32
    omega
  have hst : (Encoder.update p1val p2val (Encoder.update q1val q2val arg)).state =
      arg.state := by rw [update_state, ha]
  refine ⟨?_, hpos, hst, ?_⟩
  · rw [positionChange_eq, positionChange_eq, update_state, ha, Nat.mod_eq_of_lt hlt,
      Nat.mod_eq_of_lt (newSample_lt _ _), hb]
  · obtain ⟨h1, h2, h3, h4⟩ := update_pins p1val p2val (Encoder.update q1val q2val arg)
    obtain ⟨k1, k2, k3, k4⟩ := update_pins q1val q2val arg
    exact state_ext _ _ (h1.trans k1) (h2.trans k2) (h3.trans k3) (h4.trans k4) hst hpos

theorem bounce_nets_zero_witness :
    newSample 1 0 = 1 ∧ bitsDiffering 1 (newSample 1 1) = 1 ∧ IsInt32 7 ∧
      positionChange 1 1 ⟨16, 17, 1, 2, 1, 7⟩ =
        -positionChange 1 0 (Encoder.update 1 1 ⟨16, 17, 1, 2, 1, 7⟩) ∧
      (Encoder.update 1 0 (Encoder.update 1 1 ⟨16, 17, 1, 2, 1, 7⟩)).position = 7 ∧
      (Encoder.update 1 0 (Encoder.update 1 1 ⟨16, 17, 1, 2, 1, 7⟩)).state = 1 ∧
      Encoder.update 1 0 (Encoder.update 1 1 ⟨16, 17, 1, 2, 1, 7⟩) =
        ⟨16, 17, 1, 2, 1, 7⟩ :=
  ⟨by decide, by decide, by decide,
    bounce_nets_zero 1 0 1 1 ⟨16, 17, 1, 2, 1, 7⟩ (by decide) (by decide) (by decide)⟩

/-! ## Degraded mode and interleavings -/

theorem driveAndRead_eq (samples : List (Nat × Nat)) :
    ∀ (e : Encoder_internal_state_t) (k : Nat),
      driveAndRead samples ⟨e, k⟩ = driveAndRead samples ⟨e, 2⟩ := by
  induction samples with
  | nil => intro e k; rfl
  | cons s rest ih =>
      intro e k
      by_cases hk : k < 2
      · simp only [driveAndRead, Encoder.read, hk, if_true, update_update_same]
        have h2 : ¬ (2 < 2) := by decide
        simp only [h2, if_false]
        rw [ih _ k]
      · simp only [driveAndRead, Encoder.read, hk, if_false]
        have h2 : ¬ (2 < 2) := by decide
        simp only [h2, if_false]
        rw [ih _ k]

theorem driveAndRead_length (samples : List (Nat × Nat)) :
    ∀ self : Encoder, (driveAndRead samples self).length = samples.length := by
  induction samples with
  | nil => intro self; rfl
  | cons s rest ih =>
      intro self
      simp only [driveAndRead, List.length_cons]
      rw [ih]

/-- C11 (degraded-mode equivalence): for every initial state and every sample
sequence, a session with 0 bound channels and a session with 1 bound channel
that get one direct `update` per sample and are read after each sample report
the same positions, one per sample, as a fully-bound session given the same
updates and reads. -/
theorem degraded_mode_equivalence (samples : List (Nat × Nat))
    (e : Encoder_internal_state_t) :
    driveAndRead samples ⟨e, 0⟩ = driveAndRead samples ⟨e, 2⟩ ∧
      driveAndRead samples ⟨e, 1⟩ = driveAndRead samples ⟨e, 2⟩ ∧
      (driveAndRead samples ⟨e, 2⟩).length = samples.length :=
  ⟨driveAndRead_eq samples e 0, driveAndRead_eq samples e 1, driveAndRead_length samples _⟩

theorem runDeliveries_at (a n1 n2 : Nat) (interruptArgs : List Nat)
    (h1 : interruptArgs.getD n1 0 = a) (h2 : interruptArgs.getD n2 0 = a)
    (acts : List Delivery) :
    ∀ mem : StateMemory,
      runDeliveries a n1 n2 interruptArgs acts mem a =
        runUpdates (edgeSamples acts) (mem a) := by
  induction acts with
  | nil => intro mem; rfl
  | cons act rest ih =>
      intro mem
      cases act with
      | edgeA p1val p2val =>
          simp only [runDeliveries, edgeSamples, runUpdates_cons]
          rw [ih]
          simp only [isr, h1, if_true]
      | edgeB p1val p2val =>
          simp only [runDeliveries, edgeSamples, runUpdates_cons]
          rw [ih]
          simp only [isr, h2, if_true]
      | read p1val p2val =>
          simp only [runDeliveries, edgeSamples]
          rw [ih]
          simp [readAt, Encoder.read]

/-- C12 (interleaving safety): for a fully-bound session whose two registry
slots point at its state, every interleaving of edge deliveries from either
handler with foreground `read()` calls ends with the state that replaying the
edge samples alone through `update` produces; its position is the initial
position plus the sum of the table deltas, modulo 2^32. -/
theorem interleaving_safety (a n1 n2 : Nat) (interruptArgs : List Nat)
    (acts : List Delivery) (mem : StateMemory)
    (h1 : interruptArgs.getD n1 0 = a) (h2 : interruptArgs.getD n2 0 = a)
    (hp : IsInt32 (mem a).position) :
    runDeliveries a n1 n2 interruptArgs acts mem a =
        runUpdates (edgeSamples acts) (mem a) ∧
      (runDeliveries a n1 n2 interruptArgs acts mem a).position =
        wrap32 ((mem a).position + sumDeltas (mem a).state (edgeSamples acts)) := by
  have h := runDeliveries_at a n1 n2 interruptArgs h1 h2 acts mem
  refine ⟨h, ?_⟩
  rw [h, runUpdates_position _ _ hp]

theorem interleaving_safety_witness :
    [0, 40, 40].getD 1 0 = 40 ∧ [0, 40, 40].getD 2 0 = 40 ∧ IsInt32 5 ∧
      (runDeliveries 40 1 2 [0, 40, 40]
        [Delivery.read 0 0, Delivery.edgeB 0 1, Delivery.read 0 1, Delivery.read 0 1,
          Delivery.edgeA 1 1, Delivery.read 1 1]
        (fun _ => ⟨16, 17, 1, 2, 0, 5⟩) 40).position =
        wrap32 (5 + sumDeltas 0 [(0, 1), (1, 1)]) :=
  ⟨by decide, by decide, by decide,
    (interleaving_safety 40 1 2 [0, 40, 40]
      [Delivery.read 0 0, Delivery.edgeB 0 1, Delivery.read 0 1, Delivery.read 0 1,
        Delivery.edgeA 1 1, Delivery.read 1 1]
      (fun _ => ⟨16, 17, 1, 2, 0, 5⟩) (by decide) (by decide) (by decide)).2⟩

/-! ## Construction and the registry -/

theorem attach_interrupt_fst (board : Platform) (pin state : Nat) (interruptArgs : List Nat) :
    (attach_interrupt board pin state interruptArgs).1 =
      if (interruptNumber board pin).isSome then 1 else 0 := by
  unfold attach_interrupt
  cases interruptNumber board pin <;> rfl

theorem destructorStep_length (self_addr : Nat) (args : List Nat) (n : Nat) :
    (destructorStep self_addr args n).length = args.length := by
  unfold destructorStep
  simp only
  split <;> simp

theorem getD_of_length_le (l : List Nat) (i : Nat) (h : l.length ≤ i) : l.getD i 0 = 0 := by
  rw [List.getD_eq_getElem?_getD, List.getElem?_eq_none h]
  rfl

theorem getD_set (l : List Nat) (n i v : Nat) :
    (l.set n v).getD i 0 = if i = n ∧ i < l.length then v else l.getD i 0 := by
  by_cases h : n = i
  · subst h
    by_cases hl : n < l.length
    · simp [List.getD_eq_getElem?_getD, List.getElem?_set, hl]
    · have h1 := getD_of_length_le l n (by omega)
      have h2 := getD_of_length_le (l.set n v) n (by simp; omega)
      rw [h2, h1]
      simp [hl]
  · have h2 : ¬ i = n := fun e => h e.symm
    simp [List.getD_eq_getElem?_getD, List.getElem?_set, h, h2]

theorem destructorStep_getD (self_addr : Nat) (args : List Nat) (n i : Nat) :
    (destructorStep self_addr args n).getD i 0 =
      if i = n ∧ args.getD i 0 = self_addr then 0 else args.getD i 0 := by
  unfold destructorStep
  by_cases hc : args.getD n 0 ≠ 0 ∧ args.getD n 0 = self_addr
  · rw [if_pos hc, getD_set]
    by_cases hin : i = n
    · subst hin
      by_cases hl : i < args.length
      · rw [if_pos ⟨rfl, hl⟩, if_pos ⟨rfl, hc.2⟩]
      · exact absurd (getD_of_length_le args i (by omega)) hc.1
    · rw [if_neg (fun h => hin h.1), if_neg (fun h => hin h.1)]
  · rw [if_neg hc]
    by_cases hin : i = n
    · subst hin
      by_cases hs : args.getD i 0 = self_addr
      · rw [if_pos ⟨rfl, hs⟩]
        by_cases h0 : args.getD i 0 = 0
        · exact h0
        · exact absurd ⟨h0, hs⟩ hc
      · rw [if_neg (fun h => hs h.2)]
    · rw [if_neg (fun h => hin h.1)]

theorem destructorLoop_spec (self_addr : Nat) (args : List Nat) (m : Nat) :
    ((List.range m).foldl (destructorStep self_addr) args).length = args.length ∧
      ∀ i, ((List.range m).foldl (destructorStep self_addr) args).getD i 0 =
        if i < m ∧ args.getD i 0 = self_addr then 0 else args.getD i 0 := by
  induction m with
  | zero => simp
  | succ k ih =>
      rw [List.range_succ, List.foldl_append]
      simp only [List.foldl_cons, List.foldl_nil]
      refine ⟨by rw [destructorStep_length, ih.1], ?_⟩
      intro i
      rw [destructorStep_getD, ih.2 i]
      by_cases hik : i = k
      · subst hik
        by_cases hs : args.getD i 0 = self_addr
        · simp [hs]
        · simp [hs]
      · by_cases hlt : i < k
        · have : i < k + 1 := by omega
          simp [hik, hlt, this]
        · have : ¬ i < k + 1 := by omega
          simp [hik, hlt, this]

/-- C13 (construction): for every board, every pair of pins and every sampled
pin values, the constructor yields position 0, retained sample `a + 2 * b` for
the sampled levels `a`, `b`, and a binding count equal to the number of the
two `attach_interrupt` calls (pin 1, then pin 2 on the array the first call
left) that returned 1, which is 0, 1 or 2. -/
theorem constructor_result (board : Platform) (pin1 pin2 p1val p2val self_addr : Nat)
    (interruptArgs : List Nat) :
    (Encoder.constructor board pin1 pin2 p1val p2val self_addr interruptArgs).1.encoder.position
        = 0 ∧
      (Encoder.constructor board pin1 pin2 p1val p2val self_addr
        interruptArgs).1.encoder.state = newSample p1val p2val ∧
      (Encoder.constructor board pin1 pin2 p1val p2val self_addr
        interruptArgs).1.interrupts_in_use =
          (attach_interrupt board pin1 self_addr interruptArgs).1 +
            (attach_interrupt board pin2 self_addr
              (attach_interrupt board pin1 self_addr interruptArgs).2).1 ∧
      (Encoder.constructor board pin1 pin2 p1val p2val self_addr
        interruptArgs).1.interrupts_in_use =
          (if (interruptNumber board pin1).isSome then 1 else 0) +
            (if (interruptNumber board pin2).isSome then 1 else 0) ∧
      (Encoder.constructor board pin1 pin2 p1val p2val self_addr
        interruptArgs).1.interrupts_in_use ≤ 2 := by
  have hsum : (Encoder.constructor board pin1 pin2 p1val p2val self_addr
      interruptArgs).1.interrupts_in_use =
        (if (interruptNumber board pin1).isSome then 1 else 0) +
          (if (interruptNumber board pin2).isSome then 1 else 0) := by
    simp only [Encoder.constructor, attach_interrupt_fst]
    split <;> split <;> rfl
  refine ⟨rfl, ?_, ?_, hsum, ?_⟩
  · simp only [Encoder.constructor, newSample]
    by_cases h1 : p1val = 0 <;> by_cases h2 : p2val = 0 <;> simp [h1, h2]
  · rw [hsum, attach_interrupt_fst, attach_interrupt_fst]
  · rw [hsum]
    split <;> split <;> decide

/-- C14 (binding a bound channel, as amended): `attach_interrupt` never looks
at what the slot holds.  For a pin with interrupt number `n` it returns 1 and
stores the new state pointer in slot `n`, replacing whatever was there, another
session's pointer included; it returns 0, and leaves the array alone, only for
a pin that has no interrupt number. -/
theorem attach_interrupt_overwrites (board : Platform) (pin state : Nat)
    (interruptArgs : List Nat) :
    (∀ n, interruptNumber board pin = some n →
        (attach_interrupt board pin state interruptArgs).1 = 1 ∧
          (attach_interrupt board pin state interruptArgs).2 = interruptArgs.set n state ∧
          (n < interruptArgs.length →
            (attach_interrupt board pin state interruptArgs).2.getD n 0 = state)) ∧
      (interruptNumber board pin = none →
        attach_interrupt board pin state interruptArgs = (0, interruptArgs)) ∧
      ((attach_interrupt board pin state interruptArgs).1 = 0 ↔
        interruptNumber board pin = none) := by
  refine ⟨?_, ?_, ?_⟩
  · intro n hn
    simp only [attach_interrupt, hn, true_and]
    intro hlt
    rw [getD_set, if_pos ⟨rfl, hlt⟩]
  · intro hn
    simp only [attach_interrupt, hn]
  · rw [attach_interrupt_fst]
    cases interruptNumber board pin <;> simp

theorem attach_interrupt_overwrites_witness :
    interruptNumber ⟨id, id, fun n => if n = 1 then some 3 else none⟩ 3 = some 1 ∧
      attach_interrupt ⟨id, id, fun n => if n = 1 then some 3 else none⟩ 3 9 [0, 7] =
        (1, [0, 9]) ∧
      attach_interrupt ⟨id, id, fun n => if n = 1 then some 3 else none⟩ 4 9 [0, 7] =
        (0, [0, 7]) := by
  have h := attach_interrupt_overwrites ⟨id, id, fun n => if n = 1 then some 3 else none⟩
    3 9 [0, 7]
  have h4 := attach_interrupt_overwrites ⟨id, id, fun n => if n = 1 then some 3 else none⟩
    4 9 [0, 7]
  have hn : interruptNumber ⟨id, id, fun n => if n = 1 then some 3 else none⟩ 3 = some 1 := by
    decide
  refine ⟨hn, ?_, h4.2.1 (by decide)⟩
  exact Prod.ext (h.1 1 hn).1 (h.1 1 hn).2.1

/-- C14 as stated fails: on a board whose interrupt 0 is pin 2, with slot 0
held by another session's state (address 7), binding pin 2 for a new session
(address 9) returns 1 and slot 0 then holds 9. -/
theorem attach_interrupt_overwrites_counterexample :
    [7, 0].getD 0 0 = 7 ∧
      (attach_interrupt ⟨id, id, fun n => if n = 0 then some 2 else none⟩ 2 9 [7, 0]).1 = 1 ∧
      (attach_interrupt ⟨id, id, fun n => if n = 0 then some 2 else none⟩ 2 9 [7, 0]).1 ≠ 0 ∧
      (attach_interrupt ⟨id, id, fun n => if n = 0 then some 2 else none⟩ 2 9 [7, 0]).2 =
        [9, 0] := by
  decide

/-- C15 (destroy releases exactly this session's bindings): for an array of at
most 255 slots the destructor ends, and afterwards every slot that held this
session's state pointer is empty (0) while every other slot, empty or holding
another session's pointer, is unchanged; the array keeps its size. -/
theorem destructor_releases (self_addr : Nat) (interruptArgs : List Nat)
    (hsize : interruptArgs.length ≤ 255) :
    ∃ after, Encoder.destructor self_addr interruptArgs = some after ∧
      after.length = interruptArgs.length ∧
      ∀ n, n < interruptArgs.length →
        (interruptArgs.getD n 0 = self_addr → after.getD n 0 = 0) ∧
          (interruptArgs.getD n 0 ≠ self_addr → after.getD n 0 = interruptArgs.getD n 0) := by
  have hspec := destructorLoop_spec self_addr interruptArgs interruptArgs.length
  refine ⟨_, by simp only [Encoder.destructor, hsize, if_true], hspec.1, ?_⟩
  intro n hn
  rw [hspec.2 n]
  constructor
  · intro h
    rw [if_pos ⟨hn, h⟩]
  · intro h
    rw [if_neg (fun c => h c.2)]

theorem destructor_releases_witness :
    [9, 7, 0, 9].length ≤ 255 ∧
      ∃ after, Encoder.destructor 9 [9, 7, 0, 9] = some after ∧
        after.length = [9, 7, 0, 9].length ∧
        ∀ n, n < [9, 7, 0, 9].length →
          ([9, 7, 0, 9].getD n 0 = 9 → after.getD n 0 = 0) ∧
            ([9, 7, 0, 9].getD n 0 ≠ 9 → after.getD n 0 = [9, 7, 0, 9].getD n 0) :=
  ⟨by decide, destructor_releases 9 [9, 7, 0, 9] (by decide)⟩

/-! ## Exclusion of the handlers -/

/-- C16 (asynchronous exclusion): each of `read`, `readAndReset` and `write`
disables delivery first, re-enables it last on both of its paths, and does
every access to the shared struct, the catch-up `update` included, in between,
so that delivery is enabled in no gap inside the operation and is enabled when
the operation returns; the recorded operations compute what `Encoder.read`,
`Encoder.readAndReset` and `Encoder.write` compute. -/
theorem asynchronous_exclusion (enabled : Bool) (p1val p2val : Nat) (p : Int)
    (self : Encoder) :
    (bracketed (InterruptBuild.read p1val p2val self).2.log = true ∧
        handlerCanRunInside enabled (InterruptBuild.read p1val p2val self).2.log = false ∧
        deliveryAtEnd enabled (InterruptBuild.read p1val p2val self).2.log = true ∧
        ((InterruptBuild.read p1val p2val self).1,
            (InterruptBuild.read p1val p2val self).2.self) =
          Encoder.read p1val p2val self) ∧
      (bracketed (InterruptBuild.readAndReset p1val p2val self).2.log = true ∧
        handlerCanRunInside enabled
            (InterruptBuild.readAndReset p1val p2val self).2.log = false ∧
        deliveryAtEnd enabled (InterruptBuild.readAndReset p1val p2val self).2.log = true ∧
        ((InterruptBuild.readAndReset p1val p2val self).1,
            (InterruptBuild.readAndReset p1val p2val self).2.self) =
          Encoder.readAndReset p1val p2val self) ∧
      (bracketed (InterruptBuild.write p self).log = true ∧
        handlerCanRunInside enabled (InterruptBuild.write p self).log = false ∧
        deliveryAtEnd enabled (InterruptBuild.write p self).log = true ∧
        (InterruptBuild.write p self).self = Encoder.write p self) := by
  refine ⟨?_, ?_, ?_⟩
  · by_cases h : self.interrupts_in_use < 2
    · cases enabled <;>
        simp [InterruptBuild.read, Encoder.read, Run.noInterrupts, Run.interrupts, Run.update,
          Run.loadPosition, bracketed, handlerCanRunInside, deliveryAtEnd, deliveryAfter,
          Event.isAccess, h]
    · cases enabled <;>
        simp [InterruptBuild.read, Encoder.read, Run.noInterrupts, Run.interrupts, Run.update,
          Run.loadPosition, bracketed, handlerCanRunInside, deliveryAtEnd, deliveryAfter,
          Event.isAccess, h]
  · by_cases h : self.interrupts_in_use < 2
    · cases enabled <;>
        simp [InterruptBuild.readAndReset, Encoder.readAndReset, Run.noInterrupts,
          Run.interrupts, Run.update, Run.loadPosition, Run.storePosition, bracketed,
          handlerCanRunInside, deliveryAtEnd, deliveryAfter, Event.isAccess, h]
    · cases enabled <;>
        simp [InterruptBuild.readAndReset, Encoder.readAndReset, Run.noInterrupts,
          Run.interrupts, Run.update, Run.loadPosition, Run.storePosition, bracketed,
          handlerCanRunInside, deliveryAtEnd, deliveryAfter, Event.isAccess, h]
  · cases enabled <;>
      simp [InterruptBuild.write, Encoder.write, Run.noInterrupts, Run.interrupts,
        Run.storePosition, bracketed, handlerCanRunInside, deliveryAtEnd, deliveryAfter,
        Event.isAccess]

/-! ## The AVR path -/

theorem subi_value (b k : Nat) (hb : b < 256) (hk : k < 256) :
    (((b + 256 - k) % 256 : Nat) : Int) = b - k + 256 * ((decide (b < k)).toNat : Int) ∧
      (b + 256 - k) % 256 < 256 := by
  by_cases h : b < k
  · simp only [h, decide_True, Bool.toNat_true]
    omega
  · simp only [h, decide_False, Bool.toNat_false]
    omega

theorem sbci_value (b k : Nat) (c : Bool) (hb : b < 256) (hk : k < 256) :
    (((b + 256 - k - c.toNat) % 256 : Nat) : Int) =
        b - k - c.toNat + 256 * ((decide (b < k + c.toNat)).toNat : Int) ∧
      (b + 256 - k - c.toNat) % 256 < 256 := by
  cases c
  · by_cases h : b < k
    · simp only [Bool.toNat_false, Nat.add_zero, h, decide_True, Bool.toNat_true]
      omega
    · simp only [Bool.toNat_false, Nat.add_zero, h, decide_False]
      omega
  · by_cases h : b < k + 1
    · simp only [Bool.toNat_true, h, decide_True]
      omega
    · simp only [Bool.toNat_true, h, decide_False, Bool.toNat_false]
      omega

theorem wrap32_add_period (y : Int) (t : Int) : wrap32 (y + 4294967296 * t) = wrap32 y := by
  unfold wrap32
  omega

/-- The `subi`/`sbci` chain on r25:r24:r23:r22 subtracts the 32-bit constant
`k3:k2:k1:k0` modulo 2^32 and touches neither X nor the memory. -/
theorem sub32_spec (s : AVR) (k0 k1 k2 k3 : Nat)
    (hk0 : k0 < 256) (hk1 : k1 < 256) (hk2 : k2 < 256) (hk3 : k3 < 256)
    (h0 : s.reg 22 < 256) (h1 : s.reg 23 < 256) (h2 : s.reg 24 < 256) (h3 : s.reg 25 < 256) :
    ((((s.subi 22 k0).sbci 23 k1).sbci 24 k2).sbci 25 k3).mem = s.mem ∧
      ((((s.subi 22 k0).sbci 23 k1).sbci 24 k2).sbci 25 k3).X = s.X ∧
      wrap32 ((((((s.subi 22 k0).sbci 23 k1).sbci 24 k2).sbci 25 k3).reg 22 : Int) +
          256 * ((((s.subi 22 k0).sbci 23 k1).sbci 24 k2).sbci 25 k3).reg 23 +
          65536 * ((((s.subi 22 k0).sbci 23 k1).sbci 24 k2).sbci 25 k3).reg 24 +
          16777216 * ((((s.subi 22 k0).sbci 23 k1).sbci 24 k2).sbci 25 k3).reg 25) =
        wrap32 (((s.reg 22 : Int) + 256 * s.reg 23 + 65536 * s.reg 24 + 16777216 * s.reg 25) -
          ((k0 : Int) + 256 * k1 + 65536 * k2 + 16777216 * k3)) := by
  refine ⟨rfl, rfl, ?_⟩
  simp only [AVR.subi, AVR.sbci, AVR.setReg]
  simp only [show (22 : Nat) = 23 ↔ False from by decide, show (22 : Nat) = 24 ↔ False from by decide,
    show (22 : Nat) = 25 ↔ False from by decide, show (23 : Nat) = 22 ↔ False from by decide,
    show (23 : Nat) = 24 ↔ False from by decide, show (23 : Nat) = 25 ↔ False from by decide,
    show (24 : Nat) = 22 ↔ False from by decide, show (24 : Nat) = 23 ↔ False from by decide,
    show (24 : Nat) = 25 ↔ False from by decide, show (25 : Nat) = 22 ↔ False from by decide,
    show (25 : Nat) = 23 ↔ False from by decide, show (25 : Nat) = 24 ↔ False from by decide,
    if_true, if_false]
  rw [(subi_value _ k0 h0 hk0).1, (sbci_value _ k1 _ h1 hk1).1, (sbci_value _ k2 _ h2 hk2).1,
    (sbci_value _ k3 _ h3 hk3).1]
  rw [← wrap32_add_period
    (((s.reg 22 : Int) + 256 * s.reg 23 + 65536 * s.reg 24 + 16777216 * s.reg 25) -
      ((k0 : Int) + 256 * k1 + 65536 * k2 + 16777216 * k3))
    ((decide (s.reg 25 < k3 + (decide (s.reg 24 < k2 + (decide (s.reg 23 < k1 +
      (decide (s.reg 22 < k0)).toNat)).toNat)).toNat)).toNat : Int)]
  congr 1
  ring

theorem asm_store_spec (s : AVR) (x : Nat) (hX : s.X = x + 11) :
    (asm_store s).mem (x + 7) = s.reg 22 ∧ (asm_store s).mem (x + 8) = s.reg 23 ∧
      (asm_store s).mem (x + 9) = s.reg 24 ∧ (asm_store s).mem (x + 10) = s.reg 25 ∧
      ∀ a, a < x + 7 → (asm_store s).mem a = s.mem a := by
  have e1 : x + 11 - 1 = x + 10 := rfl
  have e2 : x + 10 - 1 = x + 9 := rfl
  have e3 : x + 9 - 1 = x + 8 := rfl
  have e4 : x + 8 - 1 = x + 7 := rfl
  simp only [asm_store, AVR.st_decX, AVR.setMem, AVR.setReg, hX, e1, e2, e3, e4]
  refine ⟨by simp, by simp, by simp, by simp, ?_⟩
  intro a ha
  have n1 : a ≠ x + 7 := by omega
  have n2 : a ≠ x + 8 := by omega
  have n3 : a ≠ x + 9 := by omega
  have n4 : a ≠ x + 10 := by omega
  simp only [n1, n2, n3, n4, if_false]

/-- Each arithmetic routine of the assembly, entered with the position in
r25:r24:r23:r22 and X just past the struct, writes back the position changed
by its delta modulo 2^32 and leaves the bytes below the position alone. -/
theorem asm_routine_spec (s : AVR) (x : Nat) (hX : s.X = x + 11)
    (h0 : s.reg 22 < 256) (h1 : s.reg 23 < 256) (h2 : s.reg 24 < 256) (h3 : s.reg 25 < 256)
    (routine : AVR → AVR) (d : Int)
    (hr : (routine = asm_plus1 ∧ d = 1) ∨ (routine = asm_plus2 ∧ d = 2) ∨
      (routine = asm_minus1 ∧ d = -1) ∨ (routine = asm_minus2 ∧ d = -2)) :
    (structAt (routine s).mem x).position =
        wrap32 (wrap32 ((s.reg 22 : Int) + 256 * s.reg 23 + 65536 * s.reg 24 +
          16777216 * s.reg 25) + d) ∧
      ∀ a, a < x + 7 → (routine s).mem a = s.mem a := by
  rcases hr with ⟨rfl, rfl⟩ | ⟨rfl, rfl⟩ | ⟨rfl, rfl⟩ | ⟨rfl, rfl⟩
  · obtain ⟨hm, hx, hv⟩ := sub32_spec s 255 255 255 255 (by decide) (by decide) (by decide)
      (by decide) h0 h1 h2 h3
    obtain ⟨s7, s8, s9, s10, sf⟩ := asm_store_spec
      ((((s.subi 22 255).sbci 23 255).sbci 24 255).sbci 25 255) x (hx.trans hX)
    refine ⟨?_, fun a ha => (sf a ha).trans (congrFun hm a)⟩
    show wrap32 _ = _
    simp only [asm_plus1, asm_z] at *
    rw [s7, s8, s9, s10, hv, wrap32_add_left]
    unfold wrap32
    omega
  · obtain ⟨hm, hx, hv⟩ := sub32_spec s 254 255 255 255 (by decide) (by decide) (by decide)
      (by decide) h0 h1 h2 h3
    obtain ⟨s7, s8, s9, s10, sf⟩ := asm_store_spec
      ((((s.subi 22 254).sbci 23 255).sbci 24 255).sbci 25 255) x (hx.trans hX)
    refine ⟨?_, fun a ha => (sf a ha).trans (congrFun hm a)⟩
    show wrap32 _ = _
    simp only [asm_plus2, asm_z] at *
    rw [s7, s8, s9, s10, hv, wrap32_add_left]
    unfold wrap32
    omega
  · obtain ⟨hm, hx, hv⟩ := sub32_spec s 1 0 0 0 (by decide) (by decide) (by decide)
      (by decide) h0 h1 h2 h3
    obtain ⟨s7, s8, s9, s10, sf⟩ := asm_store_spec
      ((((s.subi 22 1).sbci 23 0).sbci 24 0).sbci 25 0) x (hx.trans hX)
    refine ⟨?_, fun a ha => (sf a ha).trans (congrFun hm a)⟩
    show wrap32 _ = _
    simp only [asm_minus1] at *
    rw [s7, s8, s9, s10, hv, wrap32_add_left]
    unfold wrap32
    omega
  · obtain ⟨hm, hx, hv⟩ := sub32_spec s 2 0 0 0 (by decide) (by decide) (by decide)
      (by decide) h0 h1 h2 h3
    obtain ⟨s7, s8, s9, s10, sf⟩ := asm_store_spec
      ((((s.subi 22 2).sbci 23 0).sbci 24 0).sbci 25 0) x (hx.trans hX)
    refine ⟨?_, fun a ha => (sf a ha).trans (congrFun hm a)⟩
    show wrap32 _ = _
    simp only [asm_minus2] at *
    rw [s7, s8, s9, s10, hv, wrap32_add_left]
    unfold wrap32
    omega

theorem toNat_decide (p : Prop) [Decidable p] : (decide p).toNat = if p then 1 else 0 := by
  by_cases h : p <;> simp [h]

theorem asm_entry_spec (s : AVR) :
    (asm_entry s).X = s.X + 6 ∧ (asm_entry s).mem = s.mem ∧ (asm_entry s).reg 1 = s.reg 1 ∧
      (asm_entry s).reg 22 = s.mem (s.X + 6) % 4 ∧
      (asm_entry s).reg 25 = s.mem (s.mem (s.X + 2) + 256 * s.mem (s.X + 3)) ∧
      (asm_entry s).reg 31 = s.mem (s.X + 5) ∧
      (asm_entry s).zero =
        decide (s.mem (s.mem s.X + 256 * s.mem (s.X + 1)) &&& s.mem (s.X + 4) = 0) := by
  simp [asm_entry, AVR.ld_Xinc, AVR.ld_X, AVR.ld_Z, AVR.andi, AVR.and, AVR.setReg, AVR.Z,
    land_three, Nat.add_assoc]

theorem ori_spec (k : Nat) (s : AVR) :
    (s.ori 22 k).X = s.X ∧ (s.ori 22 k).mem = s.mem ∧ (s.ori 22 k).reg 1 = s.reg 1 ∧
      (s.ori 22 k).reg 22 = s.reg 22 ||| k ∧ (s.ori 22 k).reg 25 = s.reg 25 ∧
      (s.ori 22 k).reg 31 = s.reg 31 := by
  simp [AVR.ori, AVR.setReg]

theorem asm_L1_spec (s : AVR) :
    (asm_L1 s).X = s.X ∧ (asm_L1 s).mem = s.mem ∧ (asm_L1 s).reg 1 = s.reg 1 ∧
      (asm_L1 s).reg 22 = s.reg 22 ∧
      (asm_L1 s).zero = decide (s.reg 25 &&& s.reg 31 = 0) := by
  simp [asm_L1, AVR.and, AVR.setReg]

theorem asm_L2_spec (table : Nat) (s : AVR) (c : Nat) (hc : c < 16) (h22 : s.reg 22 = c)
    (hzero : s.reg 1 = 0) :
    (asm_L2 table s).X = s.X + 5 ∧
      (asm_L2 table s).reg 22 = s.mem (s.X + 1) ∧
      (asm_L2 table s).reg 23 = s.mem (s.X + 2) ∧
      (asm_L2 table s).reg 24 = s.mem (s.X + 3) ∧
      (asm_L2 table s).reg 25 = s.mem (s.X + 4) ∧
      (∀ a, a ≠ s.X → (asm_L2 table s).mem a = s.mem a) ∧
      (asm_L2 table s).mem s.X = c / 4 ∧
      ((asm_L2 table s).Z + 65536 - table % 65536) % 65536 = c := by
  subst h22
  have hasr : ∀ v : Nat, v < 16 → v / 2 ||| (v &&& 128) = v / 2 := by
    intro v hv
    interval_cases v <;> rfl
  have h2 : s.reg 22 / 2 < 16 := by omega
  refine ⟨?_, ?_, ?_, ?_, ?_, ?_, ?_, ?_⟩
  · simp [asm_L2, AVR.ld_Xinc, AVR.st_Xinc, AVR.ldi, AVR.add, AVR.adc, AVR.asr, AVR.setReg,
      AVR.setMem, Nat.add_assoc]
  · simp [asm_L2, AVR.ld_Xinc, AVR.st_Xinc, AVR.ldi, AVR.add, AVR.adc, AVR.asr, AVR.setReg,
      AVR.setMem, Nat.add_assoc]
  · simp [asm_L2, AVR.ld_Xinc, AVR.st_Xinc, AVR.ldi, AVR.add, AVR.adc, AVR.asr, AVR.setReg,
      AVR.setMem, Nat.add_assoc]
  · simp [asm_L2, AVR.ld_Xinc, AVR.st_Xinc, AVR.ldi, AVR.add, AVR.adc, AVR.asr, AVR.setReg,
      AVR.setMem, Nat.add_assoc]
  · simp [asm_L2, AVR.ld_Xinc, AVR.st_Xinc, AVR.ldi, AVR.add, AVR.adc, AVR.asr, AVR.setReg,
      AVR.setMem, Nat.add_assoc]
  · intro a ha
    simp [asm_L2, AVR.ld_Xinc, AVR.st_Xinc, AVR.ldi, AVR.add, AVR.adc, AVR.asr, AVR.setReg,
      AVR.setMem, Nat.add_assoc, ha]
  · simp [asm_L2, AVR.ld_Xinc, AVR.st_Xinc, AVR.ldi, AVR.add, AVR.adc, AVR.asr, AVR.setReg,
      AVR.setMem, Nat.add_assoc, hasr _ hc, hasr _ h2]
    omega
  · simp [asm_L2, AVR.ld_Xinc, AVR.st_Xinc, AVR.ldi, AVR.add, AVR.adc, AVR.asr, AVR.setReg,
      AVR.setMem, AVR.Z, Nat.add_assoc, hzero, toNat_decide]
    split <;> omega

theorem asm_ijmp_spec (table : Nat) (s : AVR) (x c : Nat) (hX : s.X = x + 11)
    (hidx : (s.Z + 65536 - table % 65536) % 65536 = c) (hc : c < 16)
    (e0 : s.reg 22 = s.mem (x + 7)) (e1 : s.reg 23 = s.mem (x + 8))
    (e2 : s.reg 24 = s.mem (x + 9)) (e3 : s.reg 25 = s.mem (x + 10))
    (hbytes : ∀ a, s.mem a < 256) :
    (structAt (asm_ijmp table s).mem x).position =
        (if specDelta c = 0 then (structAt s.mem x).position
          else wrap32 ((structAt s.mem x).position + specDelta c)) ∧
      ∀ a, a < x + 7 → (asm_ijmp table s).mem a = s.mem a := by
  have h0 : s.reg 22 < 256 := e0 ▸ hbytes _
  have h1 : s.reg 23 < 256 := e1 ▸ hbytes _
  have h2 : s.reg 24 < 256 := e2 ▸ hbytes _
  have h3 : s.reg 25 < 256 := e3 ▸ hbytes _
  have hpos : (structAt s.mem x).position =
      wrap32 ((s.reg 22 : Int) + 256 * s.reg 23 + 65536 * s.reg 24 + 16777216 * s.reg 25) := by
    simp only [structAt, e0, e1, e2, e3]
  have hp1 := asm_routine_spec s x hX h0 h1 h2 h3 asm_plus1 1 (Or.inl ⟨rfl, rfl⟩)
  have hp2 := asm_routine_spec s x hX h0 h1 h2 h3 asm_plus2 2 (Or.inr (Or.inl ⟨rfl, rfl⟩))
  have hm1 := asm_routine_spec s x hX h0 h1 h2 h3 asm_minus1 (-1)
    (Or.inr (Or.inr (Or.inl ⟨rfl, rfl⟩)))
  have hm2 := asm_routine_spec s x hX h0 h1 h2 h3 asm_minus2 (-2)
    (Or.inr (Or.inr (Or.inr ⟨rfl, rfl⟩)))
  rw [← hpos] at hp1 hp2 hm1 hm2
  have hmatch : ∀ k : Nat, k < 16 → asm_ijmp table s =
      (if specDelta k = 0 then s else if specDelta k = 1 then asm_plus1 s
        else if specDelta k = 2 then asm_plus2 s else if specDelta k = -1 then asm_minus1 s
        else asm_minus2 s) ∨ (s.Z + 65536 - table % 65536) % 65536 ≠ k := by
    intro k hk
    by_cases hz : (s.Z + 65536 - table % 65536) % 65536 = k
    · left
      unfold asm_ijmp
      rw [hz]
      interval_cases k <;> rfl
    · exact Or.inr hz
  rcases hmatch c hc with hm | hm
  · rw [hm]
    clear hm hmatch
    generalize asm_plus1 s = r1 at hp1 ⊢
    generalize asm_plus2 s = r2 at hp2 ⊢
    generalize asm_minus1 s = r3 at hm1 ⊢
    generalize asm_minus2 s = r4 at hm2 ⊢
    interval_cases c <;> simp only [show specDelta 0 = 0 from rfl, show specDelta 1 = 1 from rfl,
      show specDelta 2 = -1 from rfl, show specDelta 3 = 2 from rfl,
      show specDelta 4 = -1 from rfl, show specDelta 5 = 0 from rfl,
      show specDelta 6 = -2 from rfl, show specDelta 7 = 1 from rfl,
      show specDelta 8 = 1 from rfl, show specDelta 9 = -2 from rfl,
      show specDelta 10 = 0 from rfl, show specDelta 11 = -1 from rfl,
      show specDelta 12 = 2 from rfl, show specDelta 13 = -1 from rfl,
      show specDelta 14 = 1 from rfl, show specDelta 15 = 0 from rfl,
      if_true, show ((1 : Int) = 0) = False from by decide,
      show ((2 : Int) = 0) = False from by decide, show ((-1 : Int) = 0) = False from by decide,
      show ((-2 : Int) = 0) = False from by decide, show ((2 : Int) = 1) = False from by decide,
      show ((-1 : Int) = 1) = False from by decide, show ((-2 : Int) = 1) = False from by decide,
      show ((-1 : Int) = 2) = False from by decide, show ((-2 : Int) = 2) = False from by decide,
      show ((-2 : Int) = -1) = False from by decide, if_false]
    · exact ⟨trivial, fun _ _ => trivial⟩
    · exact hp1
    · exact hm1
    · exact hp2
    · exact hm1
    · exact ⟨trivial, fun _ _ => trivial⟩
    · exact hm2
    · exact hp1
    · exact hp1
    · exact hm2
    · exact ⟨trivial, fun _ _ => trivial⟩
    · exact hm1
    · exact hp2
    · exact hm1
    · exact hp1
    · exact ⟨trivial, fun _ _ => trivial⟩
  · exact absurd hidx hm

theorem code_eq (st p1 p2 : Nat) :
    ((if p2 = 0 then (if p1 = 0 then st % 4 else st % 4 ||| 4)
        else (if p1 = 0 then st % 4 else st % 4 ||| 4) ||| 8) = st % 4 + 4 * newSample p1 p2) ∧
      st % 4 + 4 * newSample p1 p2 < 16 ∧
      (st % 4 + 4 * newSample p1 p2) / 4 = newSample p1 p2 := by
  have hmod : st % 4 = 0 ∨ st % 4 = 1 ∨ st % 4 = 2 ∨ st % 4 = 3 := by omega
  rcases hmod with h | h | h | h <;> by_cases h1 : p1 = 0 <;> by_cases h2 : p2 = 0 <;>
    simp [newSample, h, h1, h2]

/-- The state just before the `ijmp`, in terms of the state at entry. -/
theorem asm_before_ijmp (table : Nat) (s : AVR) (hzero : s.reg 1 = 0) :
    ∃ t : AVR, update_asm table s = asm_ijmp table t ∧
      t.X = s.X + 11 ∧
      t.reg 22 = s.mem (s.X + 7) ∧ t.reg 23 = s.mem (s.X + 8) ∧
      t.reg 24 = s.mem (s.X + 9) ∧ t.reg 25 = s.mem (s.X + 10) ∧
      (∀ a, a ≠ s.X + 6 → t.mem a = s.mem a) ∧
      t.mem (s.X + 6) =
        newSample (s.mem (s.mem s.X + 256 * s.mem (s.X + 1)) &&& s.mem (s.X + 4))
          (s.mem (s.mem (s.X + 2) + 256 * s.mem (s.X + 3)) &&& s.mem (s.X + 5)) ∧
      (t.Z + 65536 - table % 65536) % 65536 =
        s.mem (s.X + 6) % 4 +
          4 * newSample (s.mem (s.mem s.X + 256 * s.mem (s.X + 1)) &&& s.mem (s.X + 4))
            (s.mem (s.mem (s.X + 2) + 256 * s.mem (s.X + 3)) &&& s.mem (s.X + 5)) := by
  obtain ⟨aX, amem, a1, a22, a25, a31, azero⟩ := asm_entry_spec s
  -- after the first `breq` / `ori`
  obtain ⟨u, hu, uX, umem, u1, u22, u25, u31⟩ :
      ∃ u : AVR, u = (if (asm_entry s).zero then asm_entry s else (asm_entry s).ori 22 4) ∧
        u.X = s.X + 6 ∧ u.mem = s.mem ∧ u.reg 1 = 0 ∧
        u.reg 22 = (if s.mem (s.mem s.X + 256 * s.mem (s.X + 1)) &&& s.mem (s.X + 4) = 0
          then s.mem (s.X + 6) % 4 else s.mem (s.X + 6) % 4 ||| 4) ∧
        u.reg 25 = s.mem (s.mem (s.X + 2) + 256 * s.mem (s.X + 3)) ∧
        u.reg 31 = s.mem (s.X + 5) := by
    refine ⟨_, rfl, ?_⟩
    obtain ⟨oX, omem, o1, o22, o25, o31⟩ := ori_spec 4 (asm_entry s)
    by_cases hp : s.mem (s.mem s.X + 256 * s.mem (s.X + 1)) &&& s.mem (s.X + 4) = 0
    · simp only [azero, hp, decide_True, if_true]
      exact ⟨aX, amem, a1.trans hzero, a22, a25, a31⟩
    · simp only [azero, hp, decide_False, if_false, Bool.false_eq_true]
      exact ⟨oX.trans aX, omem.trans amem, (o1.trans a1).trans hzero, o22.trans (by rw [a22]),
        o25.trans a25, o31.trans a31⟩
  obtain ⟨lX, lmem, l1, l22, lzero⟩ := asm_L1_spec u
  obtain ⟨v, hv, vX, vmem, v1, v22⟩ :
      ∃ v : AVR, v = (if (asm_L1 u).zero then asm_L1 u else (asm_L1 u).ori 22 8) ∧
        v.X = s.X + 6 ∧ v.mem = s.mem ∧ v.reg 1 = 0 ∧
        v.reg 22 = s.mem (s.X + 6) % 4 +
          4 * newSample (s.mem (s.mem s.X + 256 * s.mem (s.X + 1)) &&& s.mem (s.X + 4))
            (s.mem (s.mem (s.X + 2) + 256 * s.mem (s.X + 3)) &&& s.mem (s.X + 5)) := by
    refine ⟨_, rfl, ?_⟩
    obtain ⟨oX, omem, o1, o22, _, _⟩ := ori_spec 8 (asm_L1 u)
    have hcode := (code_eq (s.mem (s.X + 6))
      (s.mem (s.mem s.X + 256 * s.mem (s.X + 1)) &&& s.mem (s.X + 4))
      (s.mem (s.mem (s.X + 2) + 256 * s.mem (s.X + 3)) &&& s.mem (s.X + 5))).1
    rw [lzero, u25, u31]
    by_cases hp : s.mem (s.mem (s.X + 2) + 256 * s.mem (s.X + 3)) &&& s.mem (s.X + 5) = 0
    · simp only [hp, decide_True, if_true] at hcode ⊢
      exact ⟨lX.trans uX, lmem.trans umem, l1.trans u1, (l22.trans u22).trans hcode⟩
    · simp only [hp, decide_False, if_false, Bool.false_eq_true] at hcode ⊢
      refine ⟨oX.trans (lX.trans uX), omem.trans (lmem.trans umem), o1.trans (l1.trans u1), ?_⟩
      rw [o22, l22, u22]
      exact hcode
  obtain ⟨_, hlt, hdiv⟩ := code_eq (s.mem (s.X + 6))
    (s.mem (s.mem s.X + 256 * s.mem (s.X + 1)) &&& s.mem (s.X + 4))
    (s.mem (s.mem (s.X + 2) + 256 * s.mem (s.X + 3)) &&& s.mem (s.X + 5))
  obtain ⟨kX, k22, k23, k24, k25, kframe, kstate, kidx⟩ := asm_L2_spec table v _ hlt v22 v1
  refine ⟨asm_L2 table v, ?_, ?_, ?_, ?_, ?_, ?_, ?_, ?_, ?_⟩
  · simp only [update_asm]
    rw [← hu, ← hv]
  · rw [kX, vX]
  · rw [k22, vX, vmem]
  · rw [k23, vX, vmem]
  · rw [k24, vX, vmem]
  · rw [k25, vX, vmem]
  · intro a ha
    rw [kframe a (by rw [vX]; exact ha), vmem]
  · rw [← vX, kstate, hdiv]
  · exact kidx

/-- C18 (fast-path equivalence): run on a data memory of bytes with r1 zero
and X at a state struct, the AVR assembly leaves in memory exactly the struct
that the portable C body computes from the same struct and the same two
sampled pin values (port byte and mask): same pin fields, same retained
sample, same 32-bit position, wraparound included. -/
theorem fast_path_equivalence (table : Nat) (s : AVR) (hzero : s.reg 1 = 0)
    (hbytes : ∀ a, s.mem a < 256) :
    structAt (update_asm table s).mem s.X =
      Encoder.update
        (s.mem (structAt s.mem s.X).pin1_register &&& (structAt s.mem s.X).pin1_bitmask)
        (s.mem (structAt s.mem s.X).pin2_register &&& (structAt s.mem s.X).pin2_bitmask)
        (structAt s.mem s.X) := by
  obtain ⟨t, ht, tX, t22, t23, t24, t25, tframe, tstate, tidx⟩ := asm_before_ijmp table s hzero
  have hlt := (code_eq (s.mem (s.X + 6))
    (s.mem (s.mem s.X + 256 * s.mem (s.X + 1)) &&& s.mem (s.X + 4))
    (s.mem (s.mem (s.X + 2) + 256 * s.mem (s.X + 3)) &&& s.mem (s.X + 5))).2.1
  have f7 := tframe (s.X + 7) (by omega)
  have f8 := tframe (s.X + 8) (by omega)
  have f9 := tframe (s.X + 9) (by omega)
  have f10 := tframe (s.X + 10) (by omega)
  have tbytes : ∀ a, t.mem a < 256 := by
    intro a
    by_cases ha : a = s.X + 6
    · rw [ha, tstate]
      exact lt_trans (newSample_lt _ _) (by decide)
    · rw [tframe a ha]
      exact hbytes a
  obtain ⟨hpos, hframe⟩ := asm_ijmp_spec table t s.X _ tX tidx hlt (t22.trans f7.symm)
    (t23.trans f8.symm) (t24.trans f9.symm) (t25.trans f10.symm) tbytes
  have hold : (structAt t.mem s.X).position = (structAt s.mem s.X).position := by
    simp only [structAt, f7, f8, f9, f10]
  have g : ∀ a, a < s.X + 6 → (asm_ijmp table t).mem a = s.mem a := by
    intro a ha
    rw [hframe a (by omega), tframe a (by omega)]
  rw [ht, update_eq]
  apply state_ext
  · show (asm_ijmp table t).mem s.X + 256 * (asm_ijmp table t).mem (s.X + 1) = _
    rw [g _ (by omega), g _ (by omega)]
    rfl
  · show (asm_ijmp table t).mem (s.X + 2) + 256 * (asm_ijmp table t).mem (s.X + 3) = _
    rw [g _ (by omega), g _ (by omega)]
    rfl
  · show (asm_ijmp table t).mem (s.X + 4) = _
    rw [g _ (by omega)]
    rfl
  · show (asm_ijmp table t).mem (s.X + 5) = _
    rw [g _ (by omega)]
    rfl
  · show (asm_ijmp table t).mem (s.X + 6) = _
    rw [hframe _ (by omega), tstate]
    rfl
  · rw [hpos, hold]
    rfl

theorem fast_path_equivalence_witness :
    (∀ a, sampleMemory a < 256) ∧
      structAt (update_asm 8184 ⟨fun _ => 0, 100, false, false, sampleMemory⟩).mem 100 =
        Encoder.update (4 &&& 4) (4 &&& 8) ⟨35, 35, 4, 8, 0, INT32_MIN⟩ ∧
      (structAt (update_asm 8184 ⟨fun _ => 0, 100, false, false, sampleMemory⟩).mem
        100).position = INT32_MAX := by
  have hb : ∀ a, sampleMemory a < 256 := by
    intro a
    unfold sampleMemory
    split_ifs <;> decide
  have h := fast_path_equivalence 8184 ⟨fun _ => 0, 100, false, false, sampleMemory⟩ rfl hb
  have hs : structAt sampleMemory 100 = ⟨35, 35, 4, 8, 0, INT32_MIN⟩ := by decide
  refine ⟨hb, ?_, ?_⟩
  · rw [h]
    simp only [hs]
    rfl
  · rw [h]
    simp only [hs]
    decide


/-! ## The range of the state byte -/

theorem constructor_state (board : Platform) (pin1 pin2 p1val p2val self_addr : Nat)
    (interruptArgs : List Nat) :
    (Encoder.constructor board pin1 pin2 p1val p2val self_addr
      interruptArgs).1.encoder.state = newSample p1val p2val := by
  simp only [Encoder.constructor, newSample]
  by_cases h1 : p1val = 0 <;> by_cases h2 : p2val = 0 <;> simp [h1, h2]

/-- C21 (retained-sample range): the constructor leaves the state byte in
0..3; `update` leaves it in 0..3 whatever it was; `read`, `readAndReset` and
`write` keep it in 0..3 when it was; and `update` uses only bits 0 and 1 of
the stored state byte, its result for a state value `s` being its result for
`s mod 4`. -/
theorem retained_sample_range (board : Platform) (pin1 pin2 p1val p2val self_addr : Nat)
    (interruptArgs : List Nat) (p : Int) (s : Nat) (arg : Encoder_internal_state_t)
    (self : Encoder) :
    (Encoder.constructor board pin1 pin2 p1val p2val self_addr
        interruptArgs).1.encoder.state < 4 ∧
      (Encoder.update p1val p2val arg).state < 4 ∧
      (self.encoder.state < 4 →
        (Encoder.read p1val p2val self).2.encoder.state < 4 ∧
          (Encoder.readAndReset p1val p2val self).2.encoder.state < 4 ∧
          (Encoder.write p self).encoder.state < 4) ∧
      Encoder.update p1val p2val { arg with state := s } =
        Encoder.update p1val p2val { arg with state := s % 4 } := by
  refine ⟨?_, ?_, ?_, ?_⟩
  · rw [constructor_state]
    exact newSample_lt _ _
  · rw [update_state]
    exact newSample_lt _ _
  · intro h
    refine ⟨?_, ?_, h⟩
    · by_cases hk : self.interrupts_in_use < 2
      · simp only [Encoder.read, hk, if_true, update_state]
        exact newSample_lt _ _
      · simp only [Encoder.read, hk, if_false]
        exact h
    · by_cases hk : self.interrupts_in_use < 2
      · simp only [Encoder.readAndReset, hk, if_true, update_state]
        exact newSample_lt _ _
      · simp only [Encoder.readAndReset, hk, if_false]
        exact h
  · rw [update_eq, update_eq]
    simp only [Nat.mod_mod]

theorem retained_sample_range_witness :
    (3 : Nat) < 4 ∧
      (Encoder.read 1 0 ⟨⟨16, 17, 1, 2, 3, 7⟩, 2⟩).2.encoder.state < 4 ∧
      (Encoder.readAndReset 1 0 ⟨⟨16, 17, 1, 2, 3, 7⟩, 2⟩).2.encoder.state < 4 ∧
      (Encoder.write 5 ⟨⟨16, 17, 1, 2, 3, 7⟩, 2⟩).encoder.state < 4 ∧
      Encoder.update 1 0 { (⟨16, 17, 1, 2, 3, 7⟩ : Encoder_internal_state_t) with state := 254 } =
        Encoder.update 1 0
          { (⟨16, 17, 1, 2, 3, 7⟩ : Encoder_internal_state_t) with state := 254 % 4 } :=
  ⟨by decide,
    ((retained_sample_range ⟨id, id, fun _ => none⟩ 2 3 1 0 9 [] 5 254 ⟨16, 17, 1, 2, 3, 7⟩
      ⟨⟨16, 17, 1, 2, 3, 7⟩, 2⟩).2.2.1 (by decide)).1,
    ((retained_sample_range ⟨id, id, fun _ => none⟩ 2 3 1 0 9 [] 5 254 ⟨16, 17, 1, 2, 3, 7⟩
      ⟨⟨16, 17, 1, 2, 3, 7⟩, 2⟩).2.2.1 (by decide)).2.1,
    ((retained_sample_range ⟨id, id, fun _ => none⟩ 2 3 1 0 9 [] 5 254 ⟨16, 17, 1, 2, 3, 7⟩
      ⟨⟨16, 17, 1, 2, 3, 7⟩, 2⟩).2.2.1 (by decide)).2.2,
    (retained_sample_range ⟨id, id, fun _ => none⟩ 2 3 1 0 9 [] 5 254 ⟨16, 17, 1, 2, 3, 7⟩
      ⟨⟨16, 17, 1, 2, 3, 7⟩, 2⟩).2.2.2⟩


/-! ## Sessions over the shared registry -/

theorem slotHolds_iff (board : Platform) (args : List Nat) (pin addr : Nat) :
    slotHolds board args pin addr = true ↔
      ∃ n, interruptNumber board pin = some n ∧ n < args.length ∧ args.getD n 0 = addr := by
  unfold slotHolds
  cases h : interruptNumber board pin with
  | none => simp
  | some n => simp

theorem backed_iff (board : Platform) (args : List Nat) (s : Session) :
    backed board args s = true ↔
      (s.pin1 ≠ s.pin2 → s.obj.interrupts_in_use = 2 →
        slotHolds board args s.pin1 s.addr = true ∧
          slotHolds board args s.pin2 s.addr = true) := by
  unfold backed
  by_cases h : s.pin1 ≠ s.pin2 ∧ s.obj.interrupts_in_use = 2
  · rw [if_pos h, Bool.and_eq_true]
    exact ⟨fun hb _ _ => hb, fun hb => hb h.1 h.2⟩
  · rw [if_neg h]
    exact ⟨fun _ h1 h2 => absurd ⟨h1, h2⟩ h, fun _ => rfl⟩

theorem interruptNumber_pin (board : Platform) (pin n : Nat)
    (h : interruptNumber board pin = some n) : board.CORE_INT_PIN n = some pin := by
  unfold interruptNumber at h
  have := List.find?_some h
  simpa using this

theorem interruptNumber_inj (board : Platform) (p q n m : Nat)
    (hp : interruptNumber board p = some n) (hq : interruptNumber board q = some m)
    (hpq : p ≠ q) : n ≠ m := by
  intro hnm
  subst hnm
  have h1 := interruptNumber_pin board p n hp
  have h2 := interruptNumber_pin board q n hq
  rw [h1] at h2
  exact hpq (Option.some.inj h2)

theorem attach_interrupt_length (board : Platform) (pin a : Nat) (args : List Nat) :
    (attach_interrupt board pin a args).2.length = args.length := by
  unfold attach_interrupt
  cases interruptNumber board pin <;> simp

theorem attach_interrupt_other (board : Platform) (pin a : Nat) (args : List Nat)
    (q b : Nat) (hq : q ≠ pin) (h : slotHolds board args q b = true) :
    slotHolds board (attach_interrupt board pin a args).2 q b = true := by
  rw [slotHolds_iff] at h ⊢
  obtain ⟨n, hn, hlt, hget⟩ := h
  refine ⟨n, hn, by rw [attach_interrupt_length]; exact hlt, ?_⟩
  unfold attach_interrupt
  cases hm : interruptNumber board pin with
  | none => exact hget
  | some m =>
      have hne := interruptNumber_inj board q pin n m hn hm hq
      show (args.set m a).getD n 0 = b
      rw [getD_set, if_neg (fun c => hne c.1)]
      exact hget

theorem attach_interrupt_self (board : Platform) (pin a n : Nat) (args : List Nat)
    (hn : interruptNumber board pin = some n) (hlt : n < args.length) :
    slotHolds board (attach_interrupt board pin a args).2 pin a = true := by
  rw [slotHolds_iff]
  refine ⟨n, hn, by rw [attach_interrupt_length]; exact hlt, ?_⟩
  unfold attach_interrupt
  rw [hn]
  show (args.set n a).getD n 0 = a
  rw [getD_set, if_pos ⟨rfl, hlt⟩]

theorem destructor_slot (board : Platform) (a b pin : Nat) (args after : List Nat)
    (hd : Encoder.destructor a args = some after) (hab : b ≠ a)
    (h : slotHolds board args pin b = true) : slotHolds board after pin b = true := by
  unfold Encoder.destructor at hd
  split at hd
  · have hafter := Option.some.inj hd
    have hspec := destructorLoop_spec a args args.length
    rw [hafter] at hspec
    rw [slotHolds_iff] at h ⊢
    obtain ⟨n, hn, hlt, hget⟩ := h
    refine ⟨n, hn, by rw [hspec.1]; exact hlt, ?_⟩
    rw [hspec.2 n, if_neg (fun c => hab (hget.symm.trans c.2))]
    exact hget
  · exact absurd hd (by simp)

theorem destructor_length (a : Nat) (args after : List Nat)
    (hd : Encoder.destructor a args = some after) : after.length = args.length := by
  unfold Encoder.destructor at hd
  split at hd
  · have hafter := Option.some.inj hd
    rw [← hafter]
    exact (destructorLoop_spec a args args.length).1
  · exact absurd hd (by simp)

theorem constructor_backs (board : Platform) (pin1 pin2 p1val p2val a : Nat)
    (args : List Nat)
    (hslots : ∀ pin n, interruptNumber board pin = some n → n < args.length)
    (hpins : pin1 ≠ pin2)
    (hcount : (Encoder.constructor board pin1 pin2 p1val p2val a
      args).1.interrupts_in_use = 2) :
    slotHolds board (Encoder.constructor board pin1 pin2 p1val p2val a args).2 pin1 a = true ∧
      slotHolds board (Encoder.constructor board pin1 pin2 p1val p2val a args).2 pin2 a =
        true := by
  have hreg : (Encoder.constructor board pin1 pin2 p1val p2val a args).2 =
      (attach_interrupt board pin2 a (attach_interrupt board pin1 a args).2).2 := rfl
  have hsum : (Encoder.constructor board pin1 pin2 p1val p2val a args).1.interrupts_in_use =
      ((if (interruptNumber board pin1).isSome then 1 else 0) +
        (if (interruptNumber board pin2).isSome then 1 else 0)) % 256 := by
    simp only [Encoder.constructor, attach_interrupt_fst]
  rw [hsum] at hcount
  have h1 : (interruptNumber board pin1).isSome = true := by
    by_contra hc
    rw [if_neg hc] at hcount
    split at hcount <;> simp at hcount
  have h2 : (interruptNumber board pin2).isSome = true := by
    by_contra hc
    rw [if_neg hc] at hcount
    split at hcount <;> simp at hcount
  obtain ⟨n1, hn1⟩ := Option.isSome_iff_exists.mp h1
  obtain ⟨n2, hn2⟩ := Option.isSome_iff_exists.mp h2
  rw [hreg]
  constructor
  · exact attach_interrupt_other board pin2 a _ pin1 a hpins
      (attach_interrupt_self board pin1 a n1 args hn1 (hslots pin1 n1 hn1))
  · exact attach_interrupt_self board pin2 a n2 _ hn2
      (by rw [attach_interrupt_length]; exact hslots pin2 n2 hn2)

theorem constructor_keeps (board : Platform) (pin1 pin2 p1val p2val a : Nat)
    (args : List Nat) (s : Session) (h1 : s.pin1 ≠ pin1) (h2 : s.pin1 ≠ pin2)
    (h3 : s.pin2 ≠ pin1) (h4 : s.pin2 ≠ pin2) (hb : backed board args s = true) :
    backed board (Encoder.constructor board pin1 pin2 p1val p2val a args).2 s = true := by
  have hreg : (Encoder.constructor board pin1 pin2 p1val p2val a args).2 =
      (attach_interrupt board pin2 a (attach_interrupt board pin1 a args).2).2 := rfl
  rw [backed_iff] at hb ⊢
  intro hp hc
  obtain ⟨b1, b2⟩ := hb hp hc
  rw [hreg]
  exact ⟨attach_interrupt_other board pin2 a _ _ _ h2
      (attach_interrupt_other board pin1 a _ _ _ h1 b1),
    attach_interrupt_other board pin2 a _ _ _ h4
      (attach_interrupt_other board pin1 a _ _ _ h3 b2)⟩

theorem constructor_length (board : Platform) (pin1 pin2 p1val p2val a : Nat)
    (args : List Nat) :
    (Encoder.constructor board pin1 pin2 p1val p2val a args).2.length = args.length := by
  have hreg : (Encoder.constructor board pin1 pin2 p1val p2val a args).2 =
      (attach_interrupt board pin2 a (attach_interrupt board pin1 a args).2).2 := rfl
  rw [hreg, attach_interrupt_length, attach_interrupt_length]

theorem destructor_keeps (board : Platform) (a : Nat) (args after : List Nat) (s : Session)
    (hd : Encoder.destructor a args = some after) (hs : s.addr ≠ a)
    (hb : backed board args s = true) : backed board after s = true := by
  rw [backed_iff] at hb ⊢
  intro hp hc
  obtain ⟨b1, b2⟩ := hb hp hc
  exact ⟨destructor_slot board a _ _ args after hd hs b1,
    destructor_slot board a _ _ args after hd hs b2⟩

/-- One constructor or destructor call keeps every live session backed,
provided a constructor call names no pin of a live session. -/
theorem lifeStep_backed (board : Platform) (size : Nat) (hsize : size ≤ 255)
    (hslots : ∀ pin n, interruptNumber board pin = some n → n < size)
    (w : World) (e : LifeEvent) (hlen : w.interruptArgs.length = size)
    (hinv : ∀ s ∈ w.live, backed board w.interruptArgs s = true)
    (hfree : pinsFree w e = true) :
    ∃ w1, lifeStep board w e = some w1 ∧ w1.interruptArgs.length = size ∧
      ∀ s ∈ w1.live, backed board w1.interruptArgs s = true := by
  cases e with
  | construct pin1 pin2 p1val p2val a =>
      refine ⟨_, rfl, ?_, ?_⟩
      · show (Encoder.constructor board pin1 pin2 p1val p2val a w.interruptArgs).2.length = size
        rw [constructor_length, hlen]
      · intro s hs
        simp only [List.mem_cons] at hs
        rcases hs with rfl | hs
        · rw [backed_iff]
          intro hp hc
          exact constructor_backs board pin1 pin2 p1val p2val a w.interruptArgs
            (fun pin n h => by rw [hlen]; exact hslots pin n h) hp hc
        · simp only [pinsFree, List.all_eq_true, Bool.and_eq_true, bne_iff_ne, ne_eq] at hfree
          obtain ⟨⟨⟨f1, f2⟩, f3⟩, f4⟩ := hfree s hs
          exact constructor_keeps board pin1 pin2 p1val p2val a w.interruptArgs s f1 f2 f3 f4
            (hinv s hs)
  | destroy a =>
      have hsome : ∃ after, Encoder.destructor a w.interruptArgs = some after := by
        unfold Encoder.destructor
        rw [if_pos (by rw [hlen]; exact hsize)]
        exact ⟨_, rfl⟩
      obtain ⟨after, hd⟩ := hsome
      refine ⟨{ interruptArgs := after, live := w.live.filter (fun s => s.addr != a) }, ?_, ?_, ?_⟩
      · simp only [lifeStep, hd]
      · show after.length = size
        rw [destructor_length a _ _ hd, hlen]
      · intro s hs
        simp only [List.mem_filter, bne_iff_ne, ne_eq] at hs
        exact destructor_keeps board a _ after s hd hs.2 (hinv s hs.1)

theorem runLife_backed (board : Platform) (size : Nat) (hsize : size ≤ 255)
    (hslots : ∀ pin n, interruptNumber board pin = some n → n < size)
    (events : List LifeEvent) :
    ∀ w : World, w.interruptArgs.length = size →
      (∀ s ∈ w.live, backed board w.interruptArgs s = true) →
      pinsNeverShared board events w = true →
      ∃ w1, runLife board events w = some w1 ∧ w1.interruptArgs.length = size ∧
        ∀ s ∈ w1.live, backed board w1.interruptArgs s = true := by
  induction events with
  | nil =>
      intro w hlen hinv _
      exact ⟨w, rfl, hlen, hinv⟩
  | cons e rest ih =>
      intro w hlen hinv hfree
      simp only [pinsNeverShared, Bool.and_eq_true] at hfree
      obtain ⟨w1, hstep, hlen1, hinv1⟩ :=
        lifeStep_backed board size hsize hslots w e hlen hinv hfree.1
      have hrest := hfree.2
      rw [hstep] at hrest
      obtain ⟨w2, hrun, hlen2, hinv2⟩ := ih w1 hlen1 hinv1 hrest
      exact ⟨w2, by simp only [runLife, hstep, hrun], hlen2, hinv2⟩

/-- C22 (fast path backed by the registry, as amended): starting from an
empty registry, across every sequence of constructions and destructions in
which no construction names a pin of a session still alive, every live session
constructed on two distinct pins with binding count 2 has the registry slots
of both of its pins holding its own state pointer, so that the handlers of
both pins update its state. -/
theorem registry_backs_fast_path (board : Platform) (size : Nat) (events : List LifeEvent)
    (hsize : size ≤ 255)
    (hslots : ∀ pin n, interruptNumber board pin = some n → n < size)
    (hfree : pinsNeverShared board events ⟨List.replicate size 0, []⟩ = true) :
    ∃ w, runLife board events ⟨List.replicate size 0, []⟩ = some w ∧
      ∀ s ∈ w.live, s.pin1 ≠ s.pin2 → s.obj.interrupts_in_use = 2 →
        slotHolds board w.interruptArgs s.pin1 s.addr = true ∧
          slotHolds board w.interruptArgs s.pin2 s.addr = true ∧
          ∀ n p1val p2val (mem : StateMemory),
            (interruptNumber board s.pin1 = some n ∨ interruptNumber board s.pin2 = some n) →
              isr n p1val p2val w.interruptArgs mem s.addr =
                Encoder.update p1val p2val (mem s.addr) := by
  obtain ⟨w, hrun, _, hinv⟩ := runLife_backed board size hsize hslots events
    ⟨List.replicate size 0, []⟩ (by simp) (by simp) hfree
  refine ⟨w, hrun, ?_⟩
  intro s hs hp hc
  obtain ⟨b1, b2⟩ := (backed_iff board w.interruptArgs s).mp (hinv s hs) hp hc
  refine ⟨b1, b2, ?_⟩
  intro n p1val p2val mem hn
  have hget : w.interruptArgs.getD n 0 = s.addr := by
    rcases hn with hn | hn
    · obtain ⟨m, hm, _, hg⟩ := (slotHolds_iff board _ _ _).mp b1
      rw [hn] at hm
      rw [Option.some.inj hm]
      exact hg
    · obtain ⟨m, hm, _, hg⟩ := (slotHolds_iff board _ _ _).mp b2
      rw [hn] at hm
      rw [Option.some.inj hm]
      exact hg
  simp only [isr, hget, if_true]

theorem registry_backs_fast_path_witness :
    (2 : Nat) ≤ 255 ∧
      pinsNeverShared sampleBoard
        [LifeEvent.construct 2 3 1 0 10, LifeEvent.destroy 10, LifeEvent.construct 3 2 0 0 20]
        ⟨List.replicate 2 0, []⟩ = true ∧
      ∃ w, runLife sampleBoard
          [LifeEvent.construct 2 3 1 0 10, LifeEvent.destroy 10,
            LifeEvent.construct 3 2 0 0 20]
          ⟨List.replicate 2 0, []⟩ = some w ∧
        ∀ s ∈ w.live, s.pin1 ≠ s.pin2 → s.obj.interrupts_in_use = 2 →
          slotHolds sampleBoard w.interruptArgs s.pin1 s.addr = true ∧
            slotHolds sampleBoard w.interruptArgs s.pin2 s.addr = true ∧
            ∀ n p1val p2val (mem : StateMemory),
              (interruptNumber sampleBoard s.pin1 = some n ∨
                  interruptNumber sampleBoard s.pin2 = some n) →
                isr n p1val p2val w.interruptArgs mem s.addr =
                  Encoder.update p1val p2val (mem s.addr) := by
  have hslots : ∀ pin n, interruptNumber sampleBoard pin = some n → n < 2 := by
    intro pin n h
    have hpin := interruptNumber_pin sampleBoard pin n h
    by_contra hge
    have h0 : n ≠ 0 := by omega
    have h1 : n ≠ 1 := by omega
    simp [sampleBoard, h0, h1] at hpin
  exact ⟨by decide, by decide,
    registry_backs_fast_path sampleBoard 2 _ (by decide) hslots (by decide)⟩

/-- C22 as stated fails: on a board with interrupts on pins 2 and 3, after a
session at address 10 and then a session at address 20 are both constructed on
pins 2 and 3, both are alive with binding count 2 but both slots hold 20; and
once the second session is destroyed the slots are empty while the first
session still has binding count 2. -/
theorem registry_backs_fast_path_counterexample :
    (runLife sampleBoard [LifeEvent.construct 2 3 1 0 10, LifeEvent.construct 2 3 0 0 20]
        ⟨[0, 0], []⟩).map
        (fun w => (w.interruptArgs, w.live.map (fun s =>
          (s.addr, s.pin1, s.pin2, s.obj.interrupts_in_use,
            slotHolds sampleBoard w.interruptArgs s.pin1 s.addr,
            slotHolds sampleBoard w.interruptArgs s.pin2 s.addr)))) =
        some ([20, 20], [(20, 2, 3, 2, true, true), (10, 2, 3, 2, false, false)]) ∧
      (runLife sampleBoard
        [LifeEvent.construct 2 3 1 0 10, LifeEvent.construct 2 3 0 0 20, LifeEvent.destroy 20]
        ⟨[0, 0], []⟩).map
        (fun w => (w.interruptArgs, w.live.map (fun s =>
          (s.addr, s.pin1, s.pin2, s.obj.interrupts_in_use,
            slotHolds sampleBoard w.interruptArgs s.pin1 s.addr,
            slotHolds sampleBoard w.interruptArgs s.pin2 s.addr)))) =
        some ([0, 0], [(10, 2, 3, 2, false, false)]) := by
  constructor <;> rfl

end EncoderModel
